import Mathlib

/-!
Verification of the cross-language core of this repository: the MLP weight
binary codec (tools/calm_export.py `write_mlp_bin`, tools/calm_encode_library.py
`load_mlp_bin`, tools/ml/export.py `verify_weights`,
tools/unicon_training/export.py `verify_weights`) and the AMP observation
encoder (tools/motion_dataset.py).

Modelling conventions:

* Files are lists of bytes (`List Nat`, each entry `< 256`).  float32 values
  are modelled by their 32-bit little-endian bit patterns (`Nat < 2^32`):
  the writers copy the bit patterns of the float32 arrays verbatim
  (`tobytes`) and the readers reinterpret them verbatim (`np.frombuffer`,
  `struct.unpack`), so bit-pattern equality is exactly float32 equality of
  the stored values.
* Real-valued numeric code (quaternion math, the observation encoder) is
  modelled over `ℝ`.  `math.atan2 y x` is modelled as `Complex.arg ⟨x, y⟩`,
  which agrees with atan2 away from signed zeros and returns `0` at the
  origin exactly as CPython does.
-/

namespace Spec2Proof

/-! ## Byte-level primitives shared by the two binary formats -/

/-- Little-endian four-byte encoding of one 32-bit word, as produced by
`struct.pack("<I", n)` and by `tobytes()` on a float32 array (one word per
float).  Arguments are reduced mod 2^32 byte by byte. -/
def u32le (n : Nat) : List Nat :=
  [n % 256, n / 256 % 256, n / 65536 % 256, n / 16777216 % 256]

/-- Read one little-endian uint32 from the front of a byte stream, returning
the remaining stream.  Models `struct.unpack("<I", f.read(4))`, which raises
`struct.error` (here: `none`) when fewer than four bytes remain. -/
def readU32 : List Nat → Option (Nat × List Nat)
  | b0 :: b1 :: b2 :: b3 :: rest =>
      some (b0 + 256 * b1 + 65536 * b2 + 16777216 * b3, rest)
  | _ => none

/-- Decode a byte list as a sequence of little-endian 32-bit words, ignoring an
incomplete tail (callers that model `np.frombuffer` check divisibility by four
separately, as numpy does). -/
def bytesToWords : List Nat → List Nat
  | b0 :: b1 :: b2 :: b3 :: rest =>
      (b0 + 256 * b1 + 65536 * b2 + 16777216 * b3) :: bytesToWords rest
  | _ => []

/-- Cut a flat word list into `outF` rows of `inF` entries each; models
`ndarray.reshape(out_f, in_f)` applied after the caller has checked the
element count. -/
def toRows : Nat → Nat → List Nat → List (List Nat)
  | 0, _, _ => []
  | o + 1, inF, flat => flat.take inF :: toRows o inF (flat.drop inF)

/-- First word of a byte stream, when present: the magic number a reader sees. -/
def magicOf (bytes : List Nat) : Option Nat :=
  (readU32 bytes).map (·.1)

/-! ## The in-memory MLP model -/

/-- One MLP layer as the Python tools hold it: a row-major weight matrix
(rows indexed by output neuron), a bias vector, and an activation tag.
float32 entries are represented by their 32-bit bit patterns. -/
structure MlpLayer where
  weight : List (List Nat)
  bias : List Nat
  act : Nat
deriving DecidableEq

/-- Input width of a layer, read off the weight shape as the writers do
(`weight.shape` second component). -/
def layerInF (l : MlpLayer) : Nat := (l.weight.headD []).length

/-- Output width of a layer (`weight.shape` first component). -/
def layerOutF (l : MlpLayer) : Nat := l.weight.length

/-- Magic of the MLP1 format: 0x4D4C5031, ASCII "MLP1" (tools/calm_export.py,
tools/ml/export.py, tools/calm_encode_library.py). -/
def magicA : Nat := 0x4D4C5031

/-- Version field of the MLP1 format. -/
def versionA : Nat := 1

/-- Magic of the version-less variant: 0x4D4C5001, "MLP\x01"
(tools/unicon_training/export.py). -/
def magicB : Nat := 0x4D4C5001

/-- Well-formedness of an in-memory model: rectangular weight matrices,
bias length matching the output width, and every stored word (dimensions,
activation tag, float bit patterns, layer count) fitting in 32 bits, as
`struct.pack("<I", ...)` requires. -/
abbrev MlpWF (ls : List MlpLayer) : Prop :=
  ls.length < 2 ^ 32 ∧ ∀ l ∈ ls,
    layerInF l < 2 ^ 32 ∧ layerOutF l < 2 ^ 32 ∧ l.act < 2 ^ 32 ∧
    l.bias.length = layerOutF l ∧
    (∀ row ∈ l.weight, row.length = layerInF l) ∧
    (∀ w ∈ l.weight.flatten, w < 2 ^ 32) ∧ (∀ b ∈ l.bias, b < 2 ^ 32)

/-! ## Writer (tools/calm_export.py `write_mlp_bin`) -/

/-- Bytes written for one layer: the `<III>` layer header (inFeatures,
outFeatures, activation) followed by the row-major float32 weights and the
biases. -/
def writeLayerA (l : MlpLayer) : List Nat :=
  u32le (layerInF l) ++ u32le (layerOutF l) ++ u32le l.act
    ++ (l.weight.flatten.map u32le).flatten ++ (l.bias.map u32le).flatten

/-- `write_mlp_bin`: MLP1 header (magic, version, layer count) followed by the
layers in order. -/
def writeMlpBin (ls : List MlpLayer) : List Nat :=
  u32le magicA ++ u32le versionA ++ u32le ls.length ++ (ls.map writeLayerA).flatten

/-! ## Readers -/

/-- Failure modes of the Python readers: `structError` is a short
`struct.unpack` read, `badMagic` / `badVersion` are the explicit magic and
version rejections, `bufferError` is `np.frombuffer` on a byte count not
divisible by four, `reshapeError` is `reshape(out_f, in_f)` on a wrong element
count, `sizeError` is a failed per-layer byte-count assertion in the
verify readers, `trailingError` their failed final empty-remainder assertion. -/
inductive LoadError where
  | structError
  | badMagic
  | badVersion
  | bufferError
  | reshapeError
  | sizeError
  | trailingError
deriving DecidableEq

/-- Layer loop of `load_mlp_bin` (tools/calm_encode_library.py).  Per layer:
unpack the 12-byte header; `np.frombuffer(f.read(out_f*in_f*4))` for the
weights (short reads surface as a reshape or buffer error);
`np.frombuffer(f.read(out_f*4))` for the bias — note the source applies no
length check to the bias beyond frombuffer's divisibility-by-four check. -/
def loadLayersA : Nat → List Nat → Except LoadError (List MlpLayer × List Nat)
  | 0, s => .ok ([], s)
  | n + 1, s =>
    match readU32 s with
    | none => .error .structError
    | some (inF, s1) =>
    match readU32 s1 with
    | none => .error .structError
    | some (outF, s2) =>
    match readU32 s2 with
    | none => .error .structError
    | some (act, s3) =>
    let wb := s3.take (outF * inF * 4)
    if wb.length % 4 ≠ 0 then .error .bufferError
    else
      let s4 := s3.drop (outF * inF * 4)
      let bb := s4.take (outF * 4)
      if bb.length % 4 ≠ 0 then .error .bufferError
      else
        let flat := bytesToWords wb
        if flat.length ≠ outF * inF then .error .reshapeError
        else
          match loadLayersA n (s4.drop (outF * 4)) with
          | .error e => .error e
          | .ok (ls, rest) =>
              .ok (⟨toRows outF inF flat, bytesToWords bb, act⟩ :: ls, rest)

/-- `load_mlp_bin`: unpack the 12-byte MLP1 header, validate magic and
version, read `num_layers` layers, and return them.  Faithful to the source:
any bytes left over after the last layer are silently ignored. -/
def loadMlpBin (bytes : List Nat) : Except LoadError (List MlpLayer) :=
  match readU32 bytes with
  | none => .error .structError
  | some (magic, s1) =>
  match readU32 s1 with
  | none => .error .structError
  | some (version, s2) =>
  match readU32 s2 with
  | none => .error .structError
  | some (numLayers, s3) =>
  if magic ≠ magicA then .error .badMagic
  else if version ≠ versionA then .error .badVersion
  else
    match loadLayersA numLayers s3 with
    | .error e => .error e
    | .ok (ls, _) => .ok ls

/-- Layer loop of `verify_weights` (tools/ml/export.py, MLP1 variant).  Per
layer: unpack the 12-byte header, read the weight and bias byte blocks and
assert their exact lengths. -/
def verifyLayersA : Nat → List Nat → Except LoadError (List MlpLayer × List Nat)
  | 0, s => .ok ([], s)
  | n + 1, s =>
    match readU32 s with
    | none => .error .structError
    | some (inF, s1) =>
    match readU32 s1 with
    | none => .error .structError
    | some (outF, s2) =>
    match readU32 s2 with
    | none => .error .structError
    | some (act, s3) =>
    let wb := s3.take (outF * inF * 4)
    if wb.length ≠ outF * inF * 4 then .error .sizeError
    else
      let s4 := s3.drop (outF * inF * 4)
      let bb := s4.take (outF * 4)
      if bb.length ≠ outF * 4 then .error .sizeError
      else
        match verifyLayersA n (s4.drop (outF * 4)) with
        | .error e => .error e
        | .ok (ls, rest) =>
            .ok (⟨toRows outF inF (bytesToWords wb), bytesToWords bb, act⟩ :: ls, rest)

/-- `verify_weights` (tools/ml/export.py): MLP1 header with magic and version
asserts, exact per-layer byte counts, and a final assert that no bytes remain. -/
def verifyWeightsA (bytes : List Nat) : Except LoadError (List MlpLayer) :=
  match readU32 bytes with
  | none => .error .structError
  | some (magic, s1) =>
  match readU32 s1 with
  | none => .error .structError
  | some (version, s2) =>
  match readU32 s2 with
  | none => .error .structError
  | some (numLayers, s3) =>
  if magic ≠ magicA then .error .badMagic
  else if version ≠ versionA then .error .badVersion
  else
    match verifyLayersA numLayers s3 with
    | .error e => .error e
    | .ok (ls, rest) => if rest ≠ [] then .error .trailingError else .ok ls

/-- Layer loop of `verify_weights` (tools/unicon_training/export.py,
"MLP\x01" variant): 4-byte inputDim and outputDim headers (no activation tag
in the file; the parsed layer records tag 0), then exact weight and bias byte
counts. -/
def verifyLayersB : Nat → List Nat → Except LoadError (List MlpLayer × List Nat)
  | 0, s => .ok ([], s)
  | n + 1, s =>
    match readU32 s with
    | none => .error .structError
    | some (inF, s1) =>
    match readU32 s1 with
    | none => .error .structError
    | some (outF, s2) =>
    let wb := s2.take (outF * inF * 4)
    if wb.length ≠ outF * inF * 4 then .error .sizeError
    else
      let s3 := s2.drop (outF * inF * 4)
      let bb := s3.take (outF * 4)
      if bb.length ≠ outF * 4 then .error .sizeError
      else
        match verifyLayersB n (s3.drop (outF * 4)) with
        | .error e => .error e
        | .ok (ls, rest) =>
            .ok (⟨toRows outF inF (bytesToWords wb), bytesToWords bb, 0⟩ :: ls, rest)

/-- `verify_weights` for the "MLP\x01" variant: 4-byte magic with assert,
4-byte layer count, exact per-layer byte counts, final empty-remainder assert. -/
def verifyWeightsB (bytes : List Nat) : Except LoadError (List MlpLayer) :=
  match readU32 bytes with
  | none => .error .structError
  | some (magic, s1) =>
  if magic ≠ magicB then .error .badMagic
  else
    match readU32 s1 with
    | none => .error .structError
    | some (numLayers, s2) =>
    match verifyLayersB numLayers s2 with
    | .error e => .error e
    | .ok (ls, rest) => if rest ≠ [] then .error .trailingError else .ok ls

/-- Exact byte footprint of one MLP1 layer: 12-byte header plus four bytes per
weight and per bias entry. -/
def layerBytesA (l : MlpLayer) : Nat := 12 + 4 * l.weight.flatten.length + 4 * l.bias.length

/-- Exact byte size of a whole MLP1 file: the spec's
`header + Σ (layerHeader + weights + biases)`. -/
def expectedSizeA (ls : List MlpLayer) : Nat := 12 + (ls.map layerBytesA).sum

/-- Exact byte footprint of one "MLP\x01" layer: 8-byte header plus payload. -/
def layerBytesB (l : MlpLayer) : Nat := 8 + 4 * l.weight.flatten.length + 4 * l.bias.length

/-- Exact byte size of a whole "MLP\x01" file. -/
def expectedSizeB (ls : List MlpLayer) : Nat := 8 + (ls.map layerBytesB).sum

/-! ## Quaternion / rotation math (tools/motion_dataset.py), over ℝ

Quaternions use the source's `[x, y, z, w]` component convention. -/

noncomputable section
open scoped Classical

/-- A 3-vector of reals. -/
structure Vec3 where
  x : ℝ
  y : ℝ
  z : ℝ

/-- Components of a vector as a list, in x, y, z order. -/
def Vec3.toList (v : Vec3) : List ℝ := [v.x, v.y, v.z]

/-- A quaternion in the `[x, y, z, w]` convention of the encoder path. -/
structure Quat where
  x : ℝ
  y : ℝ
  z : ℝ
  w : ℝ

/-- A 3x3 matrix of reals, row-indexed: `mRC` is row R, column C. -/
structure Mat3 where
  m00 : ℝ
  m01 : ℝ
  m02 : ℝ
  m10 : ℝ
  m11 : ℝ
  m12 : ℝ
  m20 : ℝ
  m21 : ℝ
  m22 : ℝ

/-- `quat_identity`. -/
def quatIdentity : Quat := ⟨0, 0, 0, 1⟩

/-- `quat_multiply`: Hamilton product `q1 * q2`, both `[x,y,z,w]`. -/
def quatMultiply (q1 q2 : Quat) : Quat :=
  ⟨q1.w * q2.x + q1.x * q2.w + q1.y * q2.z - q1.z * q2.y,
   q1.w * q2.y - q1.x * q2.z + q1.y * q2.w + q1.z * q2.x,
   q1.w * q2.z + q1.x * q2.y - q1.y * q2.x + q1.z * q2.w,
   q1.w * q2.w - q1.x * q2.x - q1.y * q2.y - q1.z * q2.z⟩

/-- `quat_inverse`: conjugate (inverse for unit quaternions). -/
def quatInverse (q : Quat) : Quat := ⟨-q.x, -q.y, -q.z, q.w⟩

/-- Sum of squared components, so that `quatNorm` is `np.linalg.norm`. -/
def quatNormSq (q : Quat) : ℝ := q.x ^ 2 + q.y ^ 2 + q.z ^ 2 + q.w ^ 2

/-- Euclidean norm of a quaternion (`np.linalg.norm(q)`). -/
def quatNorm (q : Quat) : ℝ := Real.sqrt (quatNormSq q)

/-- `quat_normalize`: identity below the 1e-12 floor, else divide by the norm. -/
def quatNormalize (q : Quat) : Quat :=
  if quatNorm q < 1e-12 then quatIdentity
  else ⟨q.x / quatNorm q, q.y / quatNorm q, q.z / quatNorm q, q.w / quatNorm q⟩

/-- `quat_to_mat3`: quaternion to row-indexed 3x3 rotation matrix, with the
source's exact element formulas. -/
def quatToMat3 (q : Quat) : Mat3 :=
  let x2 := q.x * 2
  let y2 := q.y * 2
  let z2 := q.z * 2
  let xx := q.x * x2
  let xy := q.x * y2
  let xz := q.x * z2
  let yy := q.y * y2
  let yz := q.y * z2
  let zz := q.z * z2
  let wx := q.w * x2
  let wy := q.w * y2
  let wz := q.w * z2
  ⟨1 - (yy + zz), xy - wz, xz + wy,
   xy + wz, 1 - (xx + zz), yz - wx,
   xz - wy, yz + wx, 1 - (xx + yy)⟩

/-- Matrix-vector product `m @ v`. -/
def mat3Apply (m : Mat3) (v : Vec3) : Vec3 :=
  ⟨m.m00 * v.x + m.m01 * v.y + m.m02 * v.z,
   m.m10 * v.x + m.m11 * v.y + m.m12 * v.z,
   m.m20 * v.x + m.m21 * v.y + m.m22 * v.z⟩

/-- `quat_rotate_vec3`: rotate a vector via the equivalent matrix. -/
def quatRotateVec3 (q : Quat) (v : Vec3) : Vec3 := mat3Apply (quatToMat3 q) v

/-- `math.atan2 y x`, modelled as the argument of the complex number `x + y*i`
(agrees with atan2 on ℝ, with `atan2 0 0 = 0` as in CPython). -/
def atan2 (y x : ℝ) : ℝ := Complex.arg ⟨x, y⟩

/-- The rotated canonical forward vector `q * (0,0,1)`. -/
def quatForward (q : Quat) : Vec3 := quatRotateVec3 q ⟨0, 0, 1⟩

/-- `get_heading_angle`: heading of the rotated forward vector in the XZ
plane, `atan2(fwd.x, fwd.z)`. -/
def getHeadingAngle (q : Quat) : ℝ := atan2 (quatForward q).x (quatForward q).z

/-- `quat_from_axis_angle`: identity when the axis norm is below 1e-12, else
the normalized-axis/half-angle construction. -/
def quatFromAxisAngle (axis : Vec3) (angle : ℝ) : Quat :=
  let half := angle * 0.5
  let s := Real.sin half
  let c := Real.cos half
  let n := Real.sqrt (axis.x ^ 2 + axis.y ^ 2 + axis.z ^ 2)
  if n < 1e-12 then quatIdentity
  else ⟨axis.x / n * s, axis.y / n * s, axis.z / n * s, c⟩

/-- A yaw rotation: `angleAxis(angle, Y)`, the rotation about the vertical
axis used both by `remove_heading` and as the extra rotation in the
heading-invariance property. -/
def yawQuat (angle : ℝ) : Quat := quatFromAxisAngle ⟨0, 1, 0⟩ angle

/-- Componentwise negation of a quaternion (the other representative of the
same rotation). -/
def qneg (q : Quat) : Quat := ⟨-q.x, -q.y, -q.z, -q.w⟩

/-- `remove_heading`: `normalize(angleAxis(-heading, Y) * q)`. -/
def removeHeading (q : Quat) : Quat :=
  quatNormalize (quatMultiply (yawQuat (-(getHeadingAngle q))) q)

/-- `quat_to_tan_norm_6d`: the first two columns of the rotation matrix,
emitted as `[m00, m10, m20, m01, m11, m21]`. -/
def quatToTanNorm6D (q : Quat) : List ℝ :=
  let m := quatToMat3 q
  [m.m00, m.m10, m.m20, m.m01, m.m11, m.m21]

/-- `math.copysign x s` over ℝ: the magnitude of `x` with the sign of `s`
(positive for `s = 0`; ℝ has no negative zero). -/
def copysign (x s : ℝ) : ℝ := if s < 0 then -|x| else |x|

/-- `mat3_to_euler_xyz`: Euler XYZ extraction with the explicit gimbal-lock
branch on `|m[2][0]| >= 0.99999`. -/
def mat3ToEulerXYZ (m : Mat3) : Vec3 :=
  if |m.m20| < 0.99999 then
    ⟨atan2 (-m.m21) m.m22, Real.arcsin m.m20, atan2 (-m.m10) m.m00⟩
  else
    ⟨atan2 m.m12 m.m11, copysign (Real.pi / 2) m.m20, 0⟩

/-- Component access `euler[axis]` for axis indices 0, 1, 2. -/
def eulerGet (v : Vec3) : Nat → ℝ
  | 0 => v.x
  | 1 => v.y
  | _ => v.z

/-- `rotate_to_heading_frame`: 2D rotation of the X/Z components by the
negated heading angle, Y unchanged. -/
def rotateToHeadingFrame (v : Vec3) (headingAngle : ℝ) : Vec3 :=
  let cosH := Real.cos (-headingAngle)
  let sinH := Real.sin (-headingAngle)
  ⟨cosH * v.x + sinH * v.z, v.y, -sinH * v.x + cosH * v.z⟩

/-! ## Canonical joint layout and the AMP observation encoder -/

/-- One entry of `HUMANOID_BONE_DEFS`: training name, engine bone name,
degree-of-freedom count, key-body flag. -/
structure BoneDef where
  train : String
  engine : String
  numDofs : Nat
  isKey : Bool

/-- `HUMANOID_BONE_DEFS`: the canonical 17-joint humanoid table. -/
def humanoidBoneDefs : List BoneDef :=
  [⟨"pelvis", "Hips", 3, false⟩,
   ⟨"abdomen", "Spine", 3, false⟩,
   ⟨"chest", "Spine1", 3, false⟩,
   ⟨"neck", "Neck", 3, false⟩,
   ⟨"head", "Head", 3, true⟩,
   ⟨"right_upper_arm", "RightArm", 3, false⟩,
   ⟨"right_lower_arm", "RightForeArm", 1, false⟩,
   ⟨"right_hand", "RightHand", 0, true⟩,
   ⟨"left_upper_arm", "LeftArm", 3, false⟩,
   ⟨"left_lower_arm", "LeftForeArm", 1, false⟩,
   ⟨"left_hand", "LeftHand", 0, true⟩,
   ⟨"right_thigh", "RightUpLeg", 3, false⟩,
   ⟨"right_shin", "RightLeg", 1, false⟩,
   ⟨"right_foot", "RightFoot", 3, true⟩,
   ⟨"left_thigh", "LeftUpLeg", 3, false⟩,
   ⟨"left_shin", "LeftLeg", 1, false⟩,
   ⟨"left_foot", "LeftFoot", 3, true⟩]

/-- The `DOF_MAPPINGS` loop starting at joint index `ji`: each joint with `n`
DOFs contributes `(ji, 0) .. (ji, n-1)`. -/
def dofMappingsFrom : Nat → List BoneDef → List (Nat × Nat)
  | _, [] => []
  | ji, b :: rest =>
      ((List.range b.numDofs).map (fun ax => (ji, ax))) ++ dofMappingsFrom (ji + 1) rest

/-- `DOF_MAPPINGS` derived from a joint table. -/
def dofMappingsOf (defs : List BoneDef) : List (Nat × Nat) := dofMappingsFrom 0 defs

/-- `TOTAL_DOFS`: sum of per-joint DOF counts. -/
def totalDofsOf (defs : List BoneDef) : Nat := (defs.map (·.numDofs)).sum

/-- The `KEY_BODY_INDICES` loop starting at joint index `ji`. -/
def keyBodyIndicesFrom : Nat → List BoneDef → List Nat
  | _, [] => []
  | ji, b :: rest =>
      (if b.isKey then [ji] else []) ++ keyBodyIndicesFrom (ji + 1) rest

/-- `KEY_BODY_INDICES` derived from a joint table. -/
def keyBodyIndicesOf (defs : List BoneDef) : List Nat := keyBodyIndicesFrom 0 defs

/-- `NUM_KEY_BODIES`. -/
def numKeyBodiesOf (defs : List BoneDef) : Nat := (keyBodyIndicesOf defs).length

/-- `OBS_DIM` as the source computes it:
`1 + 6 + 3 + 3 + TOTAL_DOFS + TOTAL_DOFS + NUM_KEY_BODIES * 3`. -/
def obsDimOf (defs : List BoneDef) : Nat :=
  1 + 6 + 3 + 3 + totalDofsOf defs + totalDofsOf defs + numKeyBodiesOf defs * 3

/-- `_extract_dof_positions`: for each DOF mapping `(ji, axis)`, normalize the
joint's local rotation, convert to a matrix, decompose to Euler XYZ, and take
the mapped axis component. -/
def extractDofPositions (defs : List BoneDef) (rots : Nat → Quat) : List ℝ :=
  (dofMappingsOf defs).map
    (fun p => eulerGet (mat3ToEulerXYZ (quatToMat3 (quatNormalize (rots p.1)))) p.2)

/-- Root-velocity block of `compute_frame` (step 3): finite difference rotated
into the heading frame when both previous root fields are present and
`dt > 0`, zero otherwise. -/
def obsLinVel (rootPos : Vec3) (headingAngle : ℝ)
    (prevRootPos : Option Vec3) (prevRootRot : Option Quat) (dt : ℝ) : List ℝ :=
  match prevRootPos, prevRootRot with
  | some pp, some _ =>
      if 0 < dt then
        (rotateToHeadingFrame
          ⟨(rootPos.x - pp.x) / dt, (rootPos.y - pp.y) / dt, (rootPos.z - pp.z) / dt⟩
          headingAngle).toList
      else [0, 0, 0]
  | _, _ => [0, 0, 0]

/-- Root-angular-velocity block of `compute_frame` (step 4): delta rotation to
axis-angle (falling back to the up axis when `sin(angle/2) <= 1e-6`), scaled
by `angle/dt`, heading-rotated; zero without a previous frame. -/
def obsAngVel (rootRotN : Quat) (headingAngle : ℝ)
    (prevRootPos : Option Vec3) (prevRootRot : Option Quat) (dt : ℝ) : List ℝ :=
  match prevRootPos, prevRootRot with
  | some _, some pr =>
      if 0 < dt then
        let prN := quatNormalize pr
        let delta := quatNormalize (quatMultiply rootRotN (quatInverse prN))
        let wClamped := min 1 (max (-1) delta.w)
        let angle := 2 * Real.arccos wClamped
        let sinHalf := Real.sqrt (1 - wClamped * wClamped)
        let axis : Vec3 :=
          if 1e-6 < sinHalf then ⟨delta.x / sinHalf, delta.y / sinHalf, delta.z / sinHalf⟩
          else ⟨0, 1, 0⟩
        (rotateToHeadingFrame
          ⟨axis.x * (angle / dt), axis.y * (angle / dt), axis.z * (angle / dt)⟩
          headingAngle).toList
      else [0, 0, 0]
  | _, _ => [0, 0, 0]

/-- DOF-velocity block of `compute_frame` (step 6): finite difference of the
DOF extraction against the previous frame when the previous frame (and
`prev_joint_local_rots`) is present, zero otherwise. -/
def obsDofVel (defs : List BoneDef) (rots : Nat → Quat)
    (prevRootPos : Option Vec3) (prevRootRot : Option Quat)
    (prevRots : Option (Nat → Quat)) (dt : ℝ) : List ℝ :=
  match prevRootPos, prevRootRot, prevRots with
  | some _, some _, some prs =>
      if 0 < dt then
        List.zipWith (fun a b => (a - b) / dt)
          (extractDofPositions defs rots) (extractDofPositions defs prs)
      else List.replicate (totalDofsOf defs) 0
  | _, _, _ => List.replicate (totalDofsOf defs) 0

/-- Key-body block of `compute_frame` (step 7): root-relative positions of the
key bodies, rotated into the heading frame. -/
def obsKeyBody (defs : List BoneDef) (rootPos : Vec3) (headingAngle : ℝ)
    (gpos : Nat → Vec3) : List ℝ :=
  ((keyBodyIndicesOf defs).map
    (fun ji =>
      (rotateToHeadingFrame
        ⟨(gpos ji).x - rootPos.x, (gpos ji).y - rootPos.y, (gpos ji).z - rootPos.z⟩
        headingAngle).toList)).flatten

/-- `AMPObservationComputer.compute_frame`: the observation vector, written as
the concatenation of its seven blocks in the source's order.  The root
rotation is normalized on entry; the heading angle of the normalized root
rotation feeds the velocity and key-body blocks. -/
def computeFrame (defs : List BoneDef) (rootPos : Vec3) (rootRot : Quat)
    (rots : Nat → Quat) (gpos : Nat → Vec3)
    (prevRootPos : Option Vec3) (prevRootRot : Option Quat)
    (prevRots : Option (Nat → Quat)) (dt : ℝ) : List ℝ :=
  let rootRotN := quatNormalize rootRot
  let headingAngle := getHeadingAngle rootRotN
  [rootPos.y]
    ++ quatToTanNorm6D (removeHeading rootRotN)
    ++ obsLinVel rootPos headingAngle prevRootPos prevRootRot dt
    ++ obsAngVel rootRotN headingAngle prevRootPos prevRootRot dt
    ++ extractDofPositions defs rots
    ++ obsDofVel defs rots prevRootPos prevRootRot prevRots dt
    ++ obsKeyBody defs rootPos headingAngle gpos

/-! ## MLP forward pass and L2 normalization (tools/calm_encode_library.py) -/

/-- One MLP layer with real-valued entries, as `forward_mlp_numpy` consumes it. -/
structure LayerR where
  weight : List (List ℝ)
  bias : List ℝ
  act : Nat

/-- Matrix-vector product `W @ x` over lists. -/
def matVec (w : List (List ℝ)) (x : List ℝ) : List ℝ :=
  w.map (fun row => (List.zipWith (· * ·) row x).sum)

/-- One step of `forward_mlp_numpy`: `x = W @ x + b`, then ReLU for tag 1,
tanh for tag 2, and — exactly as in the source — no transformation for any
other tag. -/
def forwardStep (x : List ℝ) (l : LayerR) : List ℝ :=
  let y := List.zipWith (· + ·) (matVec l.weight x) l.bias
  if l.act = 1 then y.map (fun a => max a 0)
  else if l.act = 2 then y.map Real.tanh
  else y

/-- `forward_mlp_numpy`: fold the layers over the input vector. -/
def forwardMlpNumpy (layers : List LayerR) (x : List ℝ) : List ℝ :=
  layers.foldl forwardStep x

/-- Activation table as the spec describes it, for comparison with the code:
tag 1 ReLU, tag 2 tanh, tag 3 ELU (`x if x > 0 else exp(x) - 1`), tag 0 (and
anything else) identity. -/
def specActivation (tag : Nat) (a : ℝ) : ℝ :=
  if tag = 1 then max a 0
  else if tag = 2 then Real.tanh a
  else if tag = 3 then (if 0 < a then a else Real.exp a - 1)
  else a

/-- Forward pass as the spec describes it: `x = W @ x + b` then the pointwise
activation selected by the layer's tag, ELU included. -/
def specForward (layers : List LayerR) (x : List ℝ) : List ℝ :=
  layers.foldl
    (fun x l => (List.zipWith (· + ·) (matVec l.weight x) l.bias).map (specActivation l.act)) x

/-- Componentwise scaling of a quaternion, used to state magnitude-invariance
of the encoder. -/
def qscale (c : ℝ) (q : Quat) : Quat := ⟨c * q.x, c * q.y, c * q.z, c * q.w⟩

/-- Euclidean norm of a real vector (`np.linalg.norm(v)`). -/
def l2norm (v : List ℝ) : ℝ := Real.sqrt ((v.map (fun a => a ^ 2)).sum)

/-- `l2_normalize`: divide by the norm above the 1e-8 floor, else return the
input unchanged. -/
def l2Normalize (v : List ℝ) : List ℝ :=
  if 1e-8 < l2norm v then v.map (fun a => a / l2norm v) else v

end

/-! ## Byte-level lemmas for the codec -/

theorem u32le_length (n : Nat) : (u32le n).length = 4 := rfl

theorem readU32_u32le (n : Nat) (rest : List Nat) (h : n < 2 ^ 32) :
    readU32 (u32le n ++ rest) = some (n, rest) := by
  simp only [u32le, List.cons_append, List.nil_append, readU32, Option.some.injEq,
    Prod.mk.injEq]
  exact ⟨by omega, trivial⟩

theorem readU32_length {s : List Nat} {v : Nat} {r : List Nat}
    (h : readU32 s = some (v, r)) : s.length = 4 + r.length := by
  rcases s with _ | ⟨a, _ | ⟨b, _ | ⟨c, _ | ⟨d, t⟩⟩⟩⟩ <;>
    simp only [readU32, Option.some.injEq, Prod.mk.injEq, reduceCtorEq] at h
  obtain ⟨-, rfl⟩ := h
  simp only [List.length_cons]
  omega

theorem flatten_map_u32le_length (ws : List Nat) :
    ((ws.map u32le).flatten).length = 4 * ws.length := by
  induction ws with
  | nil => rfl
  | cons a t ih =>
      simp only [List.map_cons, List.flatten_cons, List.length_append, u32le_length, ih,
        List.length_cons]
      omega

theorem bytesToWords_flatten_map (ws : List Nat) (h : ∀ w ∈ ws, w < 2 ^ 32) :
    bytesToWords ((ws.map u32le).flatten) = ws := by
  induction ws with
  | nil => rfl
  | cons a t ih =>
      have ha := h a (by simp)
      simp only [List.map_cons, List.flatten_cons, u32le, List.cons_append, List.nil_append,
        bytesToWords, List.cons.injEq]
      exact ⟨by omega, ih fun w hw => h w (by simp [hw])⟩

theorem bytesToWords_length (s : List Nat) : (bytesToWords s).length = s.length / 4 := by
  induction s using bytesToWords.induct with
  | case1 b0 b1 b2 b3 rest ih =>
      simp only [bytesToWords, List.length_cons, ih]
      omega
  | case2 s h =>
      rcases s with _ | ⟨a, _ | ⟨b, _ | ⟨c, _ | ⟨d, t⟩⟩⟩⟩
      · simp [bytesToWords]
      · simp [bytesToWords]
      · simp [bytesToWords]
      · simp [bytesToWords]
      · exact absurd rfl (h a b c d t)

theorem toRows_flatten (rows : List (List Nat)) (i : Nat)
    (h : ∀ r ∈ rows, r.length = i) :
    toRows rows.length i rows.flatten = rows := by
  induction rows with
  | nil => rfl
  | cons r t ih =>
      have hr := h r (by simp)
      simp only [List.length_cons, List.flatten_cons, toRows, List.cons.injEq]
      exact ⟨List.take_left' hr, by
        rw [List.drop_left' hr]; exact ih fun r2 hr2 => h r2 (by simp [hr2])⟩

theorem flatten_length_uniform (rows : List (List Nat)) (i : Nat)
    (h : ∀ r ∈ rows, r.length = i) :
    rows.flatten.length = rows.length * i := by
  induction rows with
  | nil => simp
  | cons r t ih =>
      simp only [List.flatten_cons, List.length_append, List.length_cons]
      rw [h r (by simp), ih fun r2 hr2 => h r2 (by simp [hr2])]
      ring

theorem toRows_flatten_length (o i : Nat) (flat : List Nat) (h : flat.length = o * i) :
    (toRows o i flat).flatten.length = o * i := by
  induction o generalizing flat with
  | zero => simp [toRows]
  | succ o ih =>
      have h2 : flat.length = o * i + i := by rw [h]; ring
      have h3 : (flat.drop i).length = o * i := by
        simp only [List.length_drop]; omega
      have h4 : (o + 1) * i = o * i + i := by ring
      simp only [toRows, List.flatten_cons, List.length_append, List.length_take,
        ih (flat.drop i) h3]
      omega

/-! ## Round trip of the MLP1 writer and `load_mlp_bin` (C1, part of C2) -/

theorem loadLayersA_write (ls : List MlpLayer) (extra : List Nat)
    (h : ∀ l ∈ ls,
      layerInF l < 2 ^ 32 ∧ layerOutF l < 2 ^ 32 ∧ l.act < 2 ^ 32 ∧
      l.bias.length = layerOutF l ∧
      (∀ row ∈ l.weight, row.length = layerInF l) ∧
      (∀ w ∈ l.weight.flatten, w < 2 ^ 32) ∧ (∀ b ∈ l.bias, b < 2 ^ 32)) :
    loadLayersA ls.length ((ls.map writeLayerA).flatten ++ extra) = .ok (ls, extra) := by
  induction ls with
  | nil => rfl
  | cons l t ih =>
      obtain ⟨h1, h2, h3, h4, h5, h6, h7⟩ := h l (by simp)
      have hW : (l.weight.flatten.map u32le).flatten.length = layerOutF l * layerInF l * 4 := by
        rw [flatten_map_u32le_length, flatten_length_uniform l.weight _ h5]
        simp only [layerOutF]
        ring
      have hB : (l.bias.map u32le).flatten.length = layerOutF l * 4 := by
        rw [flatten_map_u32le_length, h4]
        ring
      have hwords : bytesToWords (l.weight.flatten.map u32le).flatten = l.weight.flatten :=
        bytesToWords_flatten_map _ h6
      have hflatlen : l.weight.flatten.length = layerOutF l * layerInF l := by
        rw [flatten_length_uniform l.weight _ h5]
        simp only [layerOutF]
      have hbias : bytesToWords (l.bias.map u32le).flatten = l.bias :=
        bytesToWords_flatten_map _ h7
      have htr : toRows (layerOutF l) (layerInF l) l.weight.flatten = l.weight := by
        show toRows l.weight.length (layerInF l) l.weight.flatten = l.weight
        exact toRows_flatten l.weight _ h5
      have hih := ih fun l2 hl2 => h l2 (by simp [hl2])
      simp only [List.map_cons, List.flatten_cons, List.length_cons, writeLayerA,
        List.append_assoc, loadLayersA, readU32_u32le _ _ h1, readU32_u32le _ _ h2,
        readU32_u32le _ _ h3, List.take_left' hW, List.drop_left' hW, List.take_left' hB,
        List.drop_left' hB, hwords, hbias, hW, hB, hflatlen, htr, hih,
        Nat.mul_mod_left, ne_eq, not_true_eq_false, if_false, not_false_eq_true,
        ite_true, ite_false, if_neg, if_true]

theorem loadMlpBin_write_trailing (ls : List MlpLayer) (extra : List Nat) (h : MlpWF ls) :
    loadMlpBin (writeMlpBin ls ++ extra) = .ok ls := by
  obtain ⟨hn, hl⟩ := h
  have hm : magicA < 2 ^ 32 := by norm_num [magicA]
  have hv : versionA < 2 ^ 32 := by norm_num [versionA]
  unfold writeMlpBin loadMlpBin
  simp only [List.append_assoc, readU32_u32le _ _ hm, readU32_u32le _ _ hv,
    readU32_u32le _ _ hn, loadLayersA_write ls extra hl, ne_eq, not_true_eq_false,
    if_false, ite_false]

/-- C1: writing any well-formed MLP model in the MLP1 binary format and
reading it back with `load_mlp_bin` reproduces the model exactly — the same
number of layers and bit-identical (hence float32-exactly-equal) weight and
bias values. -/
theorem c1_mlp1_round_trip (ls : List MlpLayer) (h : MlpWF ls) :
    loadMlpBin (writeMlpBin ls) = .ok ls := by
  have := loadMlpBin_write_trailing ls [] h
  simpa using this

/-! ## Size and magic validation of the readers (C2) -/

theorem verifyLayersA_spec (n : Nat) (s : List Nat) (ls : List MlpLayer) (rest : List Nat)
    (h : verifyLayersA n s = .ok (ls, rest)) :
    s.length = (ls.map layerBytesA).sum + rest.length := by
  induction n generalizing s ls rest with
  | zero =>
      simp only [verifyLayersA, Except.ok.injEq, Prod.mk.injEq] at h
      obtain ⟨rfl, rfl⟩ := h
      simp
  | succ n ih =>
      simp only [verifyLayersA] at h
      split at h; · simp at h
      next inF s1 e1 =>
      split at h; · simp at h
      next outF s2 e2 =>
      split at h; · simp at h
      next act s3 e3 =>
      split at h; · simp at h
      next c1 =>
      split at h; · simp at h
      next c2 =>
      split at h; · simp at h
      next ls0 rest0 e4 =>
      simp only [Except.ok.injEq, Prod.mk.injEq] at h
      obtain ⟨rfl, rfl⟩ := h
      push_neg at c1 c2
      have l1 := readU32_length e1
      have l2 := readU32_length e2
      have l3 := readU32_length e3
      have hrec := ih _ _ _ e4
      have hwords : (bytesToWords (s3.take (outF * inF * 4))).length = outF * inF := by
        rw [bytesToWords_length, c1]
        omega
      have hbias : (bytesToWords ((s3.drop (outF * inF * 4)).take (outF * 4))).length
          = outF := by
        rw [bytesToWords_length, c2]
        omega
      have hlay : layerBytesA ⟨toRows outF inF (bytesToWords (s3.take (outF * inF * 4))),
          bytesToWords ((s3.drop (outF * inF * 4)).take (outF * 4)), act⟩
          = 12 + outF * inF * 4 + outF * 4 := by
        simp only [layerBytesA, toRows_flatten_length outF inF _ hwords, hbias]
        ring
      have ht1 : outF * inF * 4 ≤ s3.length := by
        have := List.length_take (outF * inF * 4) s3
        omega
      have ht2 : outF * 4 ≤ (s3.drop (outF * inF * 4)).length := by
        have := List.length_take (outF * 4) (s3.drop (outF * inF * 4))
        omega
      have hd1 : (s3.drop (outF * inF * 4)).length = s3.length - outF * inF * 4 :=
        List.length_drop _ _
      have hd2 : ((s3.drop (outF * inF * 4)).drop (outF * 4)).length
          = (s3.drop (outF * inF * 4)).length - outF * 4 := List.length_drop _ _
      simp only [List.map_cons, List.sum_cons, hlay]
      omega

theorem verifyLayersB_spec (n : Nat) (s : List Nat) (ls : List MlpLayer) (rest : List Nat)
    (h : verifyLayersB n s = .ok (ls, rest)) :
    s.length = (ls.map layerBytesB).sum + rest.length := by
  induction n generalizing s ls rest with
  | zero =>
      simp only [verifyLayersB, Except.ok.injEq, Prod.mk.injEq] at h
      obtain ⟨rfl, rfl⟩ := h
      simp
  | succ n ih =>
      simp only [verifyLayersB] at h
      split at h; · simp at h
      next inF s1 e1 =>
      split at h; · simp at h
      next outF s2 e2 =>
      split at h; · simp at h
      next c1 =>
      split at h; · simp at h
      next c2 =>
      split at h; · simp at h
      next ls0 rest0 e4 =>
      simp only [Except.ok.injEq, Prod.mk.injEq] at h
      obtain ⟨rfl, rfl⟩ := h
      push_neg at c1 c2
      have l1 := readU32_length e1
      have l2 := readU32_length e2
      have hrec := ih _ _ _ e4
      have hwords : (bytesToWords (s2.take (outF * inF * 4))).length = outF * inF := by
        rw [bytesToWords_length, c1]
        omega
      have hbias : (bytesToWords ((s2.drop (outF * inF * 4)).take (outF * 4))).length
          = outF := by
        rw [bytesToWords_length, c2]
        omega
      have hlay : layerBytesB ⟨toRows outF inF (bytesToWords (s2.take (outF * inF * 4))),
          bytesToWords ((s2.drop (outF * inF * 4)).take (outF * 4)), 0⟩
          = 8 + outF * inF * 4 + outF * 4 := by
        simp only [layerBytesB, toRows_flatten_length outF inF _ hwords, hbias]
        ring
      have ht1 : outF * inF * 4 ≤ s2.length := by
        have := List.length_take (outF * inF * 4) s2
        omega
      have ht2 : outF * 4 ≤ (s2.drop (outF * inF * 4)).length := by
        have := List.length_take (outF * 4) (s2.drop (outF * inF * 4))
        omega
      have hd1 : (s2.drop (outF * inF * 4)).length = s2.length - outF * inF * 4 :=
        List.length_drop _ _
      have hd2 : ((s2.drop (outF * inF * 4)).drop (outF * 4)).length
          = (s2.drop (outF * inF * 4)).length - outF * 4 := List.length_drop _ _
      simp only [List.map_cons, List.sum_cons, hlay]
      omega

theorem loadMlpBin_magic (bytes : List Nat) (ls : List MlpLayer)
    (h : loadMlpBin bytes = .ok ls) : magicOf bytes = some magicA := by
  unfold loadMlpBin at h
  split at h; · simp at h
  next magic s1 e1 =>
  split at h; · simp at h
  next version s2 e2 =>
  split at h; · simp at h
  next numLayers s3 e3 =>
  split at h; · simp at h
  next hmag =>
  push_neg at hmag
  simp [magicOf, e1, hmag]

theorem verifyWeightsA_spec (bytes : List Nat) (ls : List MlpLayer)
    (h : verifyWeightsA bytes = .ok ls) :
    magicOf bytes = some magicA ∧ bytes.length = expectedSizeA ls := by
  unfold verifyWeightsA at h
  split at h; · simp at h
  next magic s1 e1 =>
  split at h; · simp at h
  next version s2 e2 =>
  split at h; · simp at h
  next numLayers s3 e3 =>
  split at h; · simp at h
  next hmag =>
  split at h; · simp at h
  next hver =>
  split at h; · simp at h
  next ls0 rest e4 =>
  split at h; · simp at h
  next hrest =>
  push_neg at hmag hrest
  simp only [Except.ok.injEq] at h
  subst h hrest
  have l1 := readU32_length e1
  have l2 := readU32_length e2
  have l3 := readU32_length e3
  have hsum := verifyLayersA_spec _ _ _ _ e4
  constructor
  · simp [magicOf, e1, hmag]
  · simp only [expectedSizeA]
    simp only [List.length_nil] at hsum
    omega

theorem verifyWeightsB_spec (bytes : List Nat) (ls : List MlpLayer)
    (h : verifyWeightsB bytes = .ok ls) :
    magicOf bytes = some magicB ∧ bytes.length = expectedSizeB ls := by
  unfold verifyWeightsB at h
  split at h; · simp at h
  next magic s1 e1 =>
  split at h; · simp at h
  next hmag =>
  split at h; · simp at h
  next numLayers s2 e2 =>
  split at h; · simp at h
  next ls0 rest e4 =>
  split at h; · simp at h
  next hrest =>
  push_neg at hmag hrest
  simp only [Except.ok.injEq] at h
  subst h hrest
  have l1 := readU32_length e1
  have l2 := readU32_length e2
  have hsum := verifyLayersB_spec _ _ _ _ e4
  constructor
  · simp [magicOf, e1, hmag]
  · simp only [expectedSizeB]
    simp only [List.length_nil] at hsum
    omega

/-- C2 counterexample: `load_mlp_bin` accepts an MLP1 file with a trailing
byte appended — 13 bytes where the exact size of the empty model is 12 —
instead of raising a hard error, so the size-validation half of the claim
fails for this reader. -/
theorem c2_load_mlp_bin_accepts_trailing :
    loadMlpBin (writeMlpBin [] ++ [0]) = .ok [] ∧
    (writeMlpBin [] ++ [0]).length ≠ expectedSizeA [] := by
  constructor
  · rfl
  · decide

/-- C2 (amended): every reader validates the magic word exactly — a
successful parse forces the file's first word to be the reader's magic — and
the two `verify_weights` readers additionally force the total file size to be
exactly `header + Σ (layerHeader + weights + biases)` bytes; `load_mlp_bin`
however silently ignores trailing bytes after the last layer (it still
round-trips any well-formed written model even with trailing garbage
appended). -/
theorem c2_reader_validation :
    (∀ bytes ls, loadMlpBin bytes = .ok ls → magicOf bytes = some magicA) ∧
    (∀ bytes ls, verifyWeightsA bytes = .ok ls →
      magicOf bytes = some magicA ∧ bytes.length = expectedSizeA ls) ∧
    (∀ bytes ls, verifyWeightsB bytes = .ok ls →
      magicOf bytes = some magicB ∧ bytes.length = expectedSizeB ls) ∧
    (∀ ls extra, MlpWF ls → loadMlpBin (writeMlpBin ls ++ extra) = .ok ls) :=
  ⟨loadMlpBin_magic, verifyWeightsA_spec, verifyWeightsB_spec,
    fun ls extra h => loadMlpBin_write_trailing ls extra h⟩

/-- Witness for C2 at a concrete model with four bytes of trailing garbage. -/
theorem c2_reader_validation_witness :
    MlpWF [⟨[[1]], [2], 1⟩] ∧
    loadMlpBin (writeMlpBin [⟨[[1]], [2], 1⟩] ++ [9, 9, 9, 9]) = .ok [⟨[[1]], [2], 1⟩] :=
  ⟨by decide, c2_reader_validation.2.2.2 [⟨[[1]], [2], 1⟩] [9, 9, 9, 9] (by decide)⟩

/-- Witness for C1 at a concrete two-layer model. -/
theorem c1_round_trip_witness :
    MlpWF [⟨[[1, 2], [3, 4]], [5, 6], 3⟩, ⟨[[7, 8]], [9], 0⟩] ∧
    loadMlpBin (writeMlpBin [⟨[[1, 2], [3, 4]], [5, 6], 3⟩, ⟨[[7, 8]], [9], 0⟩]) =
      .ok [⟨[[1, 2], [3, 4]], [5, 6], 3⟩, ⟨[[7, 8]], [9], 0⟩] :=
  ⟨by decide, c1_mlp1_round_trip _ (by decide)⟩

/-! ## Block lengths and layout of the observation vector -/

theorem dofMappingsFrom_length (defs : List BoneDef) :
    ∀ ji, (dofMappingsFrom ji defs).length = totalDofsOf defs := by
  induction defs with
  | nil => intro ji; rfl
  | cons b t ih =>
      intro ji
      simp [dofMappingsFrom, totalDofsOf, ih (ji + 1)]

theorem dofMappingsOf_length (defs : List BoneDef) :
    (dofMappingsOf defs).length = totalDofsOf defs :=
  dofMappingsFrom_length defs 0

theorem keyBodyIndicesFrom_length (defs : List BoneDef) :
    ∀ ji, (keyBodyIndicesFrom ji defs).length = (defs.filter (·.isKey)).length := by
  induction defs with
  | nil => intro ji; rfl
  | cons b t ih =>
      intro ji
      by_cases hb : b.isKey <;>
        simp [keyBodyIndicesFrom, List.filter_cons, hb, ih (ji + 1)]

theorem numKeyBodiesOf_filter (defs : List BoneDef) :
    numKeyBodiesOf defs = (defs.filter (·.isKey)).length :=
  keyBodyIndicesFrom_length defs 0

theorem quatToTanNorm6D_length (q : Quat) : (quatToTanNorm6D q).length = 6 := rfl

theorem obsLinVel_length (rootPos : Vec3) (h : ℝ) (pp : Option Vec3) (pr : Option Quat)
    (dt : ℝ) : (obsLinVel rootPos h pp pr dt).length = 3 := by
  by_cases hdt : 0 < dt <;>
    rcases pp with - | pp <;> rcases pr with - | pr <;>
      simp [obsLinVel, hdt, Vec3.toList]

theorem obsAngVel_length (rn : Quat) (h : ℝ) (pp : Option Vec3) (pr : Option Quat)
    (dt : ℝ) : (obsAngVel rn h pp pr dt).length = 3 := by
  by_cases hdt : 0 < dt <;>
    rcases pp with - | pp <;> rcases pr with - | pr <;>
      simp [obsAngVel, hdt, Vec3.toList]

theorem extractDofPositions_length (defs : List BoneDef) (rots : Nat → Quat) :
    (extractDofPositions defs rots).length = totalDofsOf defs := by
  unfold extractDofPositions
  rw [List.length_map, dofMappingsOf_length]

theorem obsDofVel_length (defs : List BoneDef) (rots : Nat → Quat) (pp : Option Vec3)
    (pr : Option Quat) (prs : Option (Nat → Quat)) (dt : ℝ) :
    (obsDofVel defs rots pp pr prs dt).length = totalDofsOf defs := by
  by_cases hdt : 0 < dt <;>
    rcases pp with - | pp <;> rcases pr with - | pr <;> rcases prs with - | prs <;>
      simp [obsDofVel, hdt, List.length_zipWith, extractDofPositions_length]

theorem obsKeyBody_length (defs : List BoneDef) (rootPos : Vec3) (h : ℝ)
    (gpos : Nat → Vec3) :
    (obsKeyBody defs rootPos h gpos).length = 3 * numKeyBodiesOf defs := by
  unfold obsKeyBody numKeyBodiesOf
  generalize keyBodyIndicesOf defs = ks
  induction ks with
  | nil => rfl
  | cons k t ih =>
      simp only [List.map_cons, List.flatten_cons, List.length_append, ih, List.length_cons]
      simp [rotateToHeadingFrame, Vec3.toList]
      ring

/-- Decomposition of `compute_frame` output: each field group sits at its
documented offset, for an arbitrary joint table. -/
theorem computeFrame_blocks (defs : List BoneDef) (rootPos : Vec3) (rootRot : Quat)
    (rots : Nat → Quat) (gpos : Nat → Vec3) (pp : Option Vec3) (pr : Option Quat)
    (prs : Option (Nat → Quat)) (dt : ℝ) :
    (computeFrame defs rootPos rootRot rots gpos pp pr prs dt).take 1 = [rootPos.y] ∧
    ((computeFrame defs rootPos rootRot rots gpos pp pr prs dt).drop 1).take 6
      = quatToTanNorm6D (removeHeading (quatNormalize rootRot)) ∧
    ((computeFrame defs rootPos rootRot rots gpos pp pr prs dt).drop 7).take 3
      = obsLinVel rootPos (getHeadingAngle (quatNormalize rootRot)) pp pr dt ∧
    ((computeFrame defs rootPos rootRot rots gpos pp pr prs dt).drop 10).take 3
      = obsAngVel (quatNormalize rootRot) (getHeadingAngle (quatNormalize rootRot)) pp pr dt ∧
    ((computeFrame defs rootPos rootRot rots gpos pp pr prs dt).drop 13).take (totalDofsOf defs)
      = extractDofPositions defs rots ∧
    ((computeFrame defs rootPos rootRot rots gpos pp pr prs dt).drop
        (13 + totalDofsOf defs)).take (totalDofsOf defs)
      = obsDofVel defs rots pp pr prs dt ∧
    (computeFrame defs rootPos rootRot rots gpos pp pr prs dt).drop
        (13 + 2 * totalDofsOf defs)
      = obsKeyBody defs rootPos (getHeadingAngle (quatNormalize rootRot)) gpos := by
  have l6 := quatToTanNorm6D_length (removeHeading (quatNormalize rootRot))
  have l3a := obsLinVel_length rootPos (getHeadingAngle (quatNormalize rootRot)) pp pr dt
  have l3b := obsAngVel_length (quatNormalize rootRot)
    (getHeadingAngle (quatNormalize rootRot)) pp pr dt
  have lD := extractDofPositions_length defs rots
  have lE := obsDofVel_length defs rots pp pr prs dt
  simp only [computeFrame, List.append_assoc]
  refine ⟨rfl, ?_, ?_, ?_, ?_, ?_, ?_⟩
  · rw [List.drop_left' (by rfl : ([rootPos.y]).length = 1), List.take_left' l6]
  · rw [show (7 : Nat) = 1 + 6 by rfl, ← List.drop_drop,
      List.drop_left' (by rfl : ([rootPos.y]).length = 1), List.drop_left' l6,
      List.take_left' l3a]
  · rw [show (10 : Nat) = 1 + 6 + 3 by rfl, ← List.drop_drop, ← List.drop_drop,
      List.drop_left' (by rfl : ([rootPos.y]).length = 1), List.drop_left' l6,
      List.drop_left' l3a, List.take_left' l3b]
  · rw [show (13 : Nat) = 1 + 6 + 3 + 3 by rfl, ← List.drop_drop, ← List.drop_drop,
      ← List.drop_drop, List.drop_left' (by rfl : ([rootPos.y]).length = 1),
      List.drop_left' l6, List.drop_left' l3a, List.drop_left' l3b, List.take_left' lD]
  · rw [show 13 + totalDofsOf defs = 1 + 6 + 3 + 3 + totalDofsOf defs by ring,
      ← List.drop_drop, ← List.drop_drop, ← List.drop_drop, ← List.drop_drop,
      List.drop_left' (by rfl : ([rootPos.y]).length = 1), List.drop_left' l6,
      List.drop_left' l3a, List.drop_left' l3b, List.drop_left' lD, List.take_left' lE]
  · rw [show 13 + 2 * totalDofsOf defs
        = 1 + 6 + 3 + 3 + totalDofsOf defs + totalDofsOf defs by ring,
      ← List.drop_drop, ← List.drop_drop, ← List.drop_drop, ← List.drop_drop,
      ← List.drop_drop, List.drop_left' (by rfl : ([rootPos.y]).length = 1),
      List.drop_left' l6, List.drop_left' l3a, List.drop_left' l3b, List.drop_left' lD,
      List.drop_left' lE]

/-- C6: for every joint table the observation length satisfies
`1 + 6 + 3 + 3 + 2*totalDOF + 3*numKeyBodies` (and `OBS_DIM` is that same
formula); the reference 17-joint table gives totalDOF 37, 5 key bodies,
dimension 102; and each field group sits at its documented offset
(0 root height, 1..6 rotation 6D, 7..9 velocity, 10..12 angular velocity,
13..49 DOF positions, 50..86 DOF velocities, 87..101 key bodies). -/
theorem c6_observation_layout :
    (∀ defs rootPos rootRot rots gpos pp pr prs dt,
      (computeFrame defs rootPos rootRot rots gpos pp pr prs dt).length
        = 1 + 6 + 3 + 3 + 2 * totalDofsOf defs + 3 * numKeyBodiesOf defs ∧
      obsDimOf defs = 1 + 6 + 3 + 3 + 2 * totalDofsOf defs + 3 * numKeyBodiesOf defs) ∧
    totalDofsOf humanoidBoneDefs = 37 ∧
    numKeyBodiesOf humanoidBoneDefs = 5 ∧
    obsDimOf humanoidBoneDefs = 102 ∧
    (∀ rootPos rootRot rots gpos pp pr prs dt,
      (computeFrame humanoidBoneDefs rootPos rootRot rots gpos pp pr prs dt).length = 102 ∧
      (computeFrame humanoidBoneDefs rootPos rootRot rots gpos pp pr prs dt).take 1
        = [rootPos.y] ∧
      ((computeFrame humanoidBoneDefs rootPos rootRot rots gpos pp pr prs dt).drop 1).take 6
        = quatToTanNorm6D (removeHeading (quatNormalize rootRot)) ∧
      ((computeFrame humanoidBoneDefs rootPos rootRot rots gpos pp pr prs dt).drop 7).take 3
        = obsLinVel rootPos (getHeadingAngle (quatNormalize rootRot)) pp pr dt ∧
      ((computeFrame humanoidBoneDefs rootPos rootRot rots gpos pp pr prs dt).drop 10).take 3
        = obsAngVel (quatNormalize rootRot) (getHeadingAngle (quatNormalize rootRot)) pp pr dt ∧
      ((computeFrame humanoidBoneDefs rootPos rootRot rots gpos pp pr prs dt).drop 13).take 37
        = extractDofPositions humanoidBoneDefs rots ∧
      ((computeFrame humanoidBoneDefs rootPos rootRot rots gpos pp pr prs dt).drop 50).take 37
        = obsDofVel humanoidBoneDefs rots pp pr prs dt ∧
      (computeFrame humanoidBoneDefs rootPos rootRot rots gpos pp pr prs dt).drop 87
        = obsKeyBody humanoidBoneDefs rootPos (getHeadingAngle (quatNormalize rootRot)) gpos) := by
  have hT : totalDofsOf humanoidBoneDefs = 37 := rfl
  have hK : numKeyBodiesOf humanoidBoneDefs = 5 := rfl
  have hlen : ∀ defs rootPos rootRot rots gpos pp pr prs dt,
      (computeFrame defs rootPos rootRot rots gpos pp pr prs dt).length
        = 1 + 6 + 3 + 3 + 2 * totalDofsOf defs + 3 * numKeyBodiesOf defs := by
    intro defs rootPos rootRot rots gpos pp pr prs dt
    unfold computeFrame
    simp only [List.length_append, List.length_cons, List.length_nil,
      quatToTanNorm6D_length, obsLinVel_length, obsAngVel_length,
      extractDofPositions_length, obsDofVel_length, obsKeyBody_length]
    ring
  refine ⟨fun defs rootPos rootRot rots gpos pp pr prs dt =>
    ⟨hlen defs rootPos rootRot rots gpos pp pr prs dt, by unfold obsDimOf; ring⟩,
    hT, hK, rfl, fun rootPos rootRot rots gpos pp pr prs dt => ?_⟩
  obtain ⟨b1, b2, b3, b4, b5, b6, b7⟩ :=
    computeFrame_blocks humanoidBoneDefs rootPos rootRot rots gpos pp pr prs dt
  rw [hT] at b5 b6 b7
  refine ⟨?_, b1, b2, b3, b4, b5, by simpa using b6, by simpa using b7⟩
  rw [hlen, hT, hK]

/-! ## First-frame zero velocities (C5) and the translation scenario (C7) -/

theorem obsLinVel_zero (rootPos : Vec3) (h : ℝ) (pp : Option Vec3) (pr : Option Quat)
    (dt : ℝ) (hc : (pp = none ∧ pr = none) ∨ dt ≤ 0) :
    obsLinVel rootPos h pp pr dt = [0, 0, 0] := by
  rcases hc with ⟨rfl, rfl⟩ | hdt
  · rfl
  · rcases pp with - | pp <;> rcases pr with - | pr <;>
      simp [obsLinVel, not_lt.mpr hdt]

theorem obsAngVel_zero (rn : Quat) (h : ℝ) (pp : Option Vec3) (pr : Option Quat)
    (dt : ℝ) (hc : (pp = none ∧ pr = none) ∨ dt ≤ 0) :
    obsAngVel rn h pp pr dt = [0, 0, 0] := by
  rcases hc with ⟨rfl, rfl⟩ | hdt
  · rfl
  · rcases pp with - | pp <;> rcases pr with - | pr <;>
      simp [obsAngVel, not_lt.mpr hdt]

theorem obsDofVel_zero (defs : List BoneDef) (rots : Nat → Quat) (pp : Option Vec3)
    (pr : Option Quat) (prs : Option (Nat → Quat)) (dt : ℝ)
    (hc : (pp = none ∧ pr = none ∧ prs = none) ∨ dt ≤ 0) :
    obsDofVel defs rots pp pr prs dt = List.replicate (totalDofsOf defs) 0 := by
  rcases hc with ⟨rfl, rfl, rfl⟩ | hdt
  · rfl
  · rcases pp with - | pp <;> rcases pr with - | pr <;> rcases prs with - | prs <;>
      simp [obsDofVel, not_lt.mpr hdt]

/-- C5: encoding a frame with no previous frame (all three previous fields
absent) or with `dt <= 0` produces exactly zero throughout the root linear
velocity block (indices 7..9), the root angular velocity block (10..12) and
the DOF velocity block (50..86). -/
theorem c5_first_frame_zero_velocities (rootPos : Vec3) (rootRot : Quat)
    (rots : Nat → Quat) (gpos : Nat → Vec3) (pp : Option Vec3) (pr : Option Quat)
    (prs : Option (Nat → Quat)) (dt : ℝ)
    (h : (pp = none ∧ pr = none ∧ prs = none) ∨ dt ≤ 0) :
    ((computeFrame humanoidBoneDefs rootPos rootRot rots gpos pp pr prs dt).drop 7).take 3
      = [0, 0, 0] ∧
    ((computeFrame humanoidBoneDefs rootPos rootRot rots gpos pp pr prs dt).drop 10).take 3
      = [0, 0, 0] ∧
    ((computeFrame humanoidBoneDefs rootPos rootRot rots gpos pp pr prs dt).drop 50).take 37
      = List.replicate 37 (0 : ℝ) := by
  obtain ⟨-, -, b3, b4, -, b6, -⟩ :=
    computeFrame_blocks humanoidBoneDefs rootPos rootRot rots gpos pp pr prs dt
  rw [show totalDofsOf humanoidBoneDefs = 37 from rfl] at b6
  norm_num at b6
  refine ⟨?_, ?_, ?_⟩
  · rw [b3, obsLinVel_zero _ _ _ _ _ (by tauto)]
  · rw [b4, obsAngVel_zero _ _ _ _ _ (by tauto)]
  · rw [b6, obsDofVel_zero _ _ _ _ _ _ (by tauto)]
    rfl

/-- Witness for C5 at a concrete first frame. -/
theorem c5_first_frame_witness :
    ((none = (none : Option Vec3) ∧ none = (none : Option Quat) ∧
        none = (none : Option (Nat → Quat))) ∨ (1 / 30 : ℝ) ≤ 0) ∧
    (((computeFrame humanoidBoneDefs ⟨0, 0, 0⟩ quatIdentity (fun _ => quatIdentity)
        (fun _ => ⟨0, 0, 0⟩) none none none (1 / 30)).drop 7).take 3 = [0, 0, 0] ∧
     ((computeFrame humanoidBoneDefs ⟨0, 0, 0⟩ quatIdentity (fun _ => quatIdentity)
        (fun _ => ⟨0, 0, 0⟩) none none none (1 / 30)).drop 10).take 3 = [0, 0, 0] ∧
     ((computeFrame humanoidBoneDefs ⟨0, 0, 0⟩ quatIdentity (fun _ => quatIdentity)
        (fun _ => ⟨0, 0, 0⟩) none none none (1 / 30)).drop 50).take 37
       = List.replicate 37 (0 : ℝ)) :=
  ⟨Or.inl ⟨rfl, rfl, rfl⟩,
   c5_first_frame_zero_velocities _ _ _ _ _ _ _ _ (Or.inl ⟨rfl, rfl, rfl⟩)⟩

theorem zipWith_sub_self_div (dt : ℝ) (l : List ℝ) :
    List.zipWith (fun a b => (a - b) / dt) l l = List.replicate l.length 0 := by
  induction l with
  | nil => rfl
  | cons a t ih => simp [ih, List.replicate_succ]

/-- C7: two consecutive frames identical except for a 1 meter `+Z` root
translation, encoded at `dt = 1/30` with a zero-heading root rotation: the
root-velocity block is exactly `(0, 0, 30)` (hence within 1e-3 of it), the
DOF-velocity block is exactly zero, and the DOF-position blocks of the two
frames coincide. -/
theorem c7_translation_scenario (rootPos : Vec3) (rootRot : Quat) (rots : Nat → Quat)
    (gpos : Nat → Vec3)
    (hh : getHeadingAngle (quatNormalize rootRot) = 0) :
    ((computeFrame humanoidBoneDefs ⟨rootPos.x, rootPos.y, rootPos.z + 1⟩ rootRot rots gpos
        (some rootPos) (some rootRot) (some rots) (1 / 30)).drop 7).take 3
      = [0, 0, 30] ∧
    ((computeFrame humanoidBoneDefs ⟨rootPos.x, rootPos.y, rootPos.z + 1⟩ rootRot rots gpos
        (some rootPos) (some rootRot) (some rots) (1 / 30)).drop 50).take 37
      = List.replicate 37 (0 : ℝ) ∧
    ((computeFrame humanoidBoneDefs ⟨rootPos.x, rootPos.y, rootPos.z + 1⟩ rootRot rots gpos
        (some rootPos) (some rootRot) (some rots) (1 / 30)).drop 13).take 37
      = ((computeFrame humanoidBoneDefs rootPos rootRot rots gpos
          none none none (1 / 30)).drop 13).take 37 := by
  obtain ⟨-, -, b3, -, b5, b6, -⟩ :=
    computeFrame_blocks humanoidBoneDefs ⟨rootPos.x, rootPos.y, rootPos.z + 1⟩ rootRot
      rots gpos (some rootPos) (some rootRot) (some rots) (1 / 30)
  obtain ⟨-, -, -, -, b5a, -, -⟩ :=
    computeFrame_blocks humanoidBoneDefs rootPos rootRot rots gpos none none none (1 / 30)
  rw [show totalDofsOf humanoidBoneDefs = 37 from rfl] at b5 b5a b6
  norm_num at b6
  rw [hh] at b3
  refine ⟨?_, ?_, ?_⟩
  · rw [b3]
    simp only [obsLinVel, if_pos (by norm_num : (0 : ℝ) < 1 / 30)]
    simp [rotateToHeadingFrame, Vec3.toList]
  · rw [b6]
    simp only [obsDofVel, if_pos (by norm_num : (0 : ℝ) < 1 / 30)]
    rw [zipWith_sub_self_div, extractDofPositions_length]
    rfl
  · rw [b5, b5a]

theorem quatNorm_identity : quatNorm quatIdentity = 1 := by
  show Real.sqrt ((0 : ℝ) ^ 2 + 0 ^ 2 + 0 ^ 2 + 1 ^ 2) = 1
  rw [show ((0 : ℝ) ^ 2 + 0 ^ 2 + 0 ^ 2 + 1 ^ 2) = 1 by norm_num, Real.sqrt_one]

theorem quatNormalize_identity : quatNormalize quatIdentity = quatIdentity := by
  unfold quatNormalize
  rw [quatNorm_identity, if_neg (by norm_num)]
  simp [quatIdentity]

theorem quatForward_identity : quatForward quatIdentity = ⟨0, 0, 1⟩ := by
  norm_num [quatForward, quatRotateVec3, mat3Apply, quatToMat3, quatIdentity]

theorem getHeadingAngle_identity : getHeadingAngle quatIdentity = 0 := by
  unfold getHeadingAngle
  rw [quatForward_identity]
  show atan2 0 1 = 0
  unfold atan2
  rw [show (⟨1, 0⟩ : ℂ) = 1 from by norm_num [Complex.ext_iff], Complex.arg_one]

/-- Witness for C7 at the identity root rotation. -/
theorem c7_translation_witness :
    getHeadingAngle (quatNormalize quatIdentity) = 0 ∧
    ((computeFrame humanoidBoneDefs ⟨0, 0, 0 + 1⟩ quatIdentity (fun _ => quatIdentity)
        (fun _ => ⟨0, 0, 0⟩) (some ⟨0, 0, 0⟩) (some quatIdentity)
        (some fun _ => quatIdentity) (1 / 30)).drop 7).take 3 = [0, 0, 30] ∧
    ((computeFrame humanoidBoneDefs ⟨0, 0, 0 + 1⟩ quatIdentity (fun _ => quatIdentity)
        (fun _ => ⟨0, 0, 0⟩) (some ⟨0, 0, 0⟩) (some quatIdentity)
        (some fun _ => quatIdentity) (1 / 30)).drop 50).take 37
      = List.replicate 37 (0 : ℝ) ∧
    ((computeFrame humanoidBoneDefs ⟨0, 0, 0 + 1⟩ quatIdentity (fun _ => quatIdentity)
        (fun _ => ⟨0, 0, 0⟩) (some ⟨0, 0, 0⟩) (some quatIdentity)
        (some fun _ => quatIdentity) (1 / 30)).drop 13).take 37
      = ((computeFrame humanoidBoneDefs ⟨0, 0, 0⟩ quatIdentity (fun _ => quatIdentity)
        (fun _ => ⟨0, 0, 0⟩) none none none (1 / 30)).drop 13).take 37 := by
  have hh : getHeadingAngle (quatNormalize quatIdentity) = 0 := by
    rw [quatNormalize_identity, getHeadingAngle_identity]
  exact ⟨hh, c7_translation_scenario ⟨0, 0, 0⟩ quatIdentity (fun _ => quatIdentity)
    (fun _ => ⟨0, 0, 0⟩) hh⟩

/-! ## Magnitude invariance of the encoder inputs (C10) -/

theorem quatNorm_qscale (c : ℝ) (q : Quat) (hc : 0 < c) :
    quatNorm (qscale c q) = c * quatNorm q := by
  unfold quatNorm quatNormSq qscale
  have h1 : (c * q.x) ^ 2 + (c * q.y) ^ 2 + (c * q.z) ^ 2 + (c * q.w) ^ 2
      = c ^ 2 * (q.x ^ 2 + q.y ^ 2 + q.z ^ 2 + q.w ^ 2) := by ring
  rw [h1, Real.sqrt_mul (sq_nonneg c), Real.sqrt_sq hc.le]

theorem quatNormalize_qscale {c : ℝ} (q : Quat) (hc : 0 < c)
    (h1 : 1e-12 ≤ quatNorm q) (h2 : 1e-12 ≤ quatNorm (qscale c q)) :
    quatNormalize (qscale c q) = quatNormalize q := by
  unfold quatNormalize
  rw [if_neg (not_lt.mpr h2), if_neg (not_lt.mpr h1), quatNorm_qscale c q hc]
  show Quat.mk (c * q.x / (c * quatNorm q)) (c * q.y / (c * quatNorm q))
      (c * q.z / (c * quatNorm q)) (c * q.w / (c * quatNorm q)) = _
  rw [mul_div_mul_left _ _ hc.ne', mul_div_mul_left _ _ hc.ne',
    mul_div_mul_left _ _ hc.ne', mul_div_mul_left _ _ hc.ne']

theorem obsLinVel_rot_irrel (rootPos : Vec3) (h : ℝ) (pp : Option Vec3) (a b : Quat)
    (dt : ℝ) : obsLinVel rootPos h pp (some a) dt = obsLinVel rootPos h pp (some b) dt := by
  rcases pp with - | pp <;> rfl

theorem obsAngVel_congr (rn : Quat) (h : ℝ) (pp : Option Vec3) {a b : Quat} (dt : ℝ)
    (hq : quatNormalize a = quatNormalize b) :
    obsAngVel rn h pp (some a) dt = obsAngVel rn h pp (some b) dt := by
  rcases pp with - | pp
  · rfl
  · simp only [obsAngVel, hq]

theorem obsDofVel_prevRot_irrel (defs : List BoneDef) (rots : Nat → Quat)
    (pp : Option Vec3) (a b : Quat) (prs : Option (Nat → Quat)) (dt : ℝ) :
    obsDofVel defs rots pp (some a) prs dt = obsDofVel defs rots pp (some b) prs dt := by
  rcases pp with - | pp <;> rcases prs with - | prs <;> rfl

theorem extractDofPositions_congr (defs : List BoneDef) {rots rots2 : Nat → Quat}
    (h : ∀ i, quatNormalize (rots2 i) = quatNormalize (rots i)) :
    extractDofPositions defs rots2 = extractDofPositions defs rots := by
  unfold extractDofPositions
  exact List.map_congr_left fun p hp => by rw [h p.1]

theorem obsDofVel_rots_congr (defs : List BoneDef) {rots rots2 : Nat → Quat}
    (pp : Option Vec3) (pr : Option Quat) (prs : Option (Nat → Quat)) (dt : ℝ)
    (h : extractDofPositions defs rots2 = extractDofPositions defs rots) :
    obsDofVel defs rots2 pp pr prs dt = obsDofVel defs rots pp pr prs dt := by
  rcases pp with - | pp <;> rcases pr with - | pr <;> rcases prs with - | prs <;>
    simp only [obsDofVel, h]

/-- C10: `compute_frame` normalizes the current root rotation, the previous
root rotation and every joint local rotation before use, so scaling any one
of them by a positive power of two — keeping its norm at or above the 1e-12
floor before and after — leaves the whole observation vector unchanged. -/
theorem c10_scale_invariance :
    (∀ (defs : List BoneDef) (rootPos : Vec3) (rootRot : Quat) (rots : Nat → Quat)
       (gpos : Nat → Vec3) (pp : Option Vec3) (pr : Option Quat)
       (prs : Option (Nat → Quat)) (dt : ℝ) (k : ℤ),
      1e-12 ≤ quatNorm rootRot → 1e-12 ≤ quatNorm (qscale ((2 : ℝ) ^ k) rootRot) →
      computeFrame defs rootPos (qscale ((2 : ℝ) ^ k) rootRot) rots gpos pp pr prs dt
        = computeFrame defs rootPos rootRot rots gpos pp pr prs dt) ∧
    (∀ (defs : List BoneDef) (rootPos : Vec3) (rootRot : Quat) (rots : Nat → Quat)
       (gpos : Nat → Vec3) (pp : Option Vec3) (pq : Quat)
       (prs : Option (Nat → Quat)) (dt : ℝ) (k : ℤ),
      1e-12 ≤ quatNorm pq → 1e-12 ≤ quatNorm (qscale ((2 : ℝ) ^ k) pq) →
      computeFrame defs rootPos rootRot rots gpos pp (some (qscale ((2 : ℝ) ^ k) pq)) prs dt
        = computeFrame defs rootPos rootRot rots gpos pp (some pq) prs dt) ∧
    (∀ (defs : List BoneDef) (rootPos : Vec3) (rootRot : Quat) (rots : Nat → Quat)
       (gpos : Nat → Vec3) (pp : Option Vec3) (pr : Option Quat)
       (prs : Option (Nat → Quat)) (dt : ℝ) (j : Nat) (k : ℤ),
      1e-12 ≤ quatNorm (rots j) → 1e-12 ≤ quatNorm (qscale ((2 : ℝ) ^ k) (rots j)) →
      computeFrame defs rootPos rootRot
          (fun i => if i = j then qscale ((2 : ℝ) ^ k) (rots j) else rots i)
          gpos pp pr prs dt
        = computeFrame defs rootPos rootRot rots gpos pp pr prs dt) := by
  refine ⟨?_, ?_, ?_⟩
  · intro defs rootPos rootRot rots gpos pp pr prs dt k h1 h2
    have hc : (0 : ℝ) < (2 : ℝ) ^ k := zpow_pos (by norm_num) k
    simp only [computeFrame, quatNormalize_qscale rootRot hc h1 h2]
  · intro defs rootPos rootRot rots gpos pp pq prs dt k h1 h2
    have hc : (0 : ℝ) < (2 : ℝ) ^ k := zpow_pos (by norm_num) k
    have hq := quatNormalize_qscale pq hc h1 h2
    simp only [computeFrame]
    rw [obsLinVel_rot_irrel _ _ _ _ pq, obsAngVel_congr _ _ _ _ hq,
      obsDofVel_prevRot_irrel _ _ _ _ pq]
  · intro defs rootPos rootRot rots gpos pp pr prs dt j k h1 h2
    have hc : (0 : ℝ) < (2 : ℝ) ^ k := zpow_pos (by norm_num) k
    have hext : ∀ i, quatNormalize ((fun i => if i = j then
        qscale ((2 : ℝ) ^ k) (rots j) else rots i) i) = quatNormalize (rots i) := by
      intro i
      by_cases hi : i = j
      · subst hi
        simp only [if_pos rfl]
        exact quatNormalize_qscale (rots i) hc h1 h2
      · simp only [if_neg hi]
    have hED := extractDofPositions_congr defs hext
    simp only [computeFrame]
    rw [hED, obsDofVel_rots_congr defs _ _ _ _ hED]

/-- Witness for C10: doubling the identity root rotation leaves the
observation unchanged. -/
theorem c10_scale_invariance_witness :
    (1e-12 : ℝ) ≤ quatNorm quatIdentity ∧
    (1e-12 : ℝ) ≤ quatNorm (qscale ((2 : ℝ) ^ (1 : ℤ)) quatIdentity) ∧
    computeFrame humanoidBoneDefs ⟨0, 0, 0⟩ (qscale ((2 : ℝ) ^ (1 : ℤ)) quatIdentity)
        (fun _ => quatIdentity) (fun _ => ⟨0, 0, 0⟩) none none none (1 / 30)
      = computeFrame humanoidBoneDefs ⟨0, 0, 0⟩ quatIdentity
        (fun _ => quatIdentity) (fun _ => ⟨0, 0, 0⟩) none none none (1 / 30) := by
  have h1 : (1e-12 : ℝ) ≤ quatNorm quatIdentity := by
    rw [quatNorm_identity]
    norm_num
  have h2 : (1e-12 : ℝ) ≤ quatNorm (qscale ((2 : ℝ) ^ (1 : ℤ)) quatIdentity) := by
    rw [show ((2 : ℝ) ^ (1 : ℤ)) = 2 from zpow_one 2,
      quatNorm_qscale 2 _ (by norm_num), quatNorm_identity]
    norm_num
  exact ⟨h1, h2, c10_scale_invariance.1 humanoidBoneDefs ⟨0, 0, 0⟩ quatIdentity
    (fun _ => quatIdentity) (fun _ => ⟨0, 0, 0⟩) none none none (1 / 30) 1 h1 h2⟩

/-! ## Forward pass versus the spec's activation table (C3) -/

/-- C3 counterexample: on a layer tagged 3 (ELU), `forward_mlp_numpy` applies
no activation at all — the spec's forward pass (ELU for tag 3) produces a
different value on input `[-1]`. -/
theorem c3_elu_tag_identity :
    forwardMlpNumpy [⟨[[1]], [0], 3⟩] [-1] = [-1] ∧
    specForward [⟨[[1]], [0], 3⟩] [-1] = [Real.exp (-1) - 1] ∧
    forwardMlpNumpy [⟨[[1]], [0], 3⟩] [-1] ≠ specForward [⟨[[1]], [0], 3⟩] [-1] := by
  refine ⟨?_, ?_, ?_⟩
  · simp [forwardMlpNumpy, forwardStep, matVec]
  · simp [specForward, specActivation, matVec]
  · simp [forwardMlpNumpy, forwardStep, specForward, specActivation, matVec]
    intro hcontra
    split_ifs at hcontra with hc
    · norm_num at hc
    · nlinarith [Real.exp_pos (-1 : ℝ)]

/-- C3 (amended): for layers whose activation tags are all in {0, 1, 2} the
code's forward pass computes exactly the spec's per-layer
`W @ x + b` followed by the tag-selected pointwise activation (identity,
ReLU, tanh); the ELU tag 3, however, is applied by the code as the identity,
not as `x if x > 0 else exp(x) - 1`. -/
theorem c3_forward_supported_tags (layers : List LayerR) (x : List ℝ)
    (h : ∀ l ∈ layers, l.act = 0 ∨ l.act = 1 ∨ l.act = 2) :
    forwardMlpNumpy layers x = specForward layers x := by
  induction layers generalizing x with
  | nil => rfl
  | cons l t ih =>
      have hstep : forwardStep x l =
          (List.zipWith (· + ·) (matVec l.weight x) l.bias).map (specActivation l.act) := by
        obtain h1 | h1 | h1 := h l (by simp)
        · have ha : specActivation 0 = id := by
            funext a
            simp [specActivation]
          simp [forwardStep, h1, ha]
        · have ha : specActivation 1 = fun a => max a 0 := by
            funext a
            simp [specActivation]
          simp [forwardStep, h1, ha]
        · have ha : specActivation 2 = Real.tanh := by
            funext a
            simp [specActivation]
          simp [forwardStep, h1, ha]
      simp only [forwardMlpNumpy, specForward, List.foldl_cons] at ih ⊢
      rw [hstep]
      exact ih _ fun l2 hl2 => h l2 (by simp [hl2])

/-- Witness for C3 at a one-layer ReLU network. -/
theorem c3_forward_witness :
    (∀ l ∈ ([⟨[[2]], [1], 1⟩] : List LayerR), l.act = 0 ∨ l.act = 1 ∨ l.act = 2) ∧
    forwardMlpNumpy [⟨[[2]], [1], 1⟩] [3] = specForward [⟨[[2]], [1], 1⟩] [3] := by
  have h : ∀ l ∈ ([⟨[[2]], [1], 1⟩] : List LayerR), l.act = 0 ∨ l.act = 1 ∨ l.act = 2 := by
    intro l hl
    rw [List.mem_singleton] at hl
    subst hl
    right; left; rfl
  exact ⟨h, c3_forward_supported_tags _ _ h⟩

/-! ## Euler XYZ gimbal-lock branch (C8) -/

/-- C8: `mat3_to_euler_xyz` takes the gimbal-lock branch exactly when
`|m[2][0]| >= 0.99999`, returning `z = 0` and `y = copysign(pi/2, m[2][0])`
(that is `±pi/2` with the sign of `m[2][0]`), and otherwise performs the
general three-angle solve via `asin` and `atan2`. -/
theorem c8_euler_gimbal_branch (m : Mat3) :
    (0.99999 ≤ |m.m20| →
      mat3ToEulerXYZ m = ⟨atan2 m.m12 m.m11, copysign (Real.pi / 2) m.m20, 0⟩) ∧
    (|m.m20| < 0.99999 →
      mat3ToEulerXYZ m =
        ⟨atan2 (-m.m21) m.m22, Real.arcsin m.m20, atan2 (-m.m10) m.m00⟩) ∧
    copysign (Real.pi / 2) m.m20 =
      (if m.m20 < 0 then -(Real.pi / 2) else Real.pi / 2) := by
  refine ⟨fun h => ?_, fun h => ?_, ?_⟩
  · unfold mat3ToEulerXYZ
    rw [if_neg (not_lt.mpr h)]
  · unfold mat3ToEulerXYZ
    rw [if_pos h]
  · have hp : |Real.pi / 2| = Real.pi / 2 := abs_of_pos (by positivity)
    unfold copysign
    rw [hp]

/-- Witness for C8 at a matrix with `m[2][0] = 1`. -/
theorem c8_euler_witness :
    (0.99999 : ℝ) ≤ |(Mat3.mk 0 0 1 0 1 0 1 0 0).m20| ∧
    mat3ToEulerXYZ (Mat3.mk 0 0 1 0 1 0 1 0 0) =
      ⟨atan2 (Mat3.mk 0 0 1 0 1 0 1 0 0).m12 (Mat3.mk 0 0 1 0 1 0 1 0 0).m11,
       copysign (Real.pi / 2) (Mat3.mk 0 0 1 0 1 0 1 0 0).m20, 0⟩ :=
  ⟨by norm_num, (c8_euler_gimbal_branch _).1 (by norm_num)⟩

/-! ## Normalization floors and idempotence (C9) -/

/-- C9: `quat_normalize` returns the identity quaternion for every quaternion
with norm below the 1e-12 floor; it is idempotent on every quaternion at or
above the floor; and `l2_normalize` applies its floor at 1e-8, returning the
input unchanged when the norm does not exceed it. -/
theorem c9_normalize_floor_idempotent :
    (∀ q : Quat, quatNorm q < 1e-12 → quatNormalize q = quatIdentity) ∧
    (∀ q : Quat, 1e-12 ≤ quatNorm q →
      quatNormalize (quatNormalize q) = quatNormalize q) ∧
    (∀ v : List ℝ, ¬ 1e-8 < l2norm v → l2Normalize v = v) := by
  refine ⟨fun q h => ?_, fun q h => ?_, fun v h => ?_⟩
  · unfold quatNormalize
    rw [if_pos h]
  · have h0 : (0 : ℝ) < quatNorm q := lt_of_lt_of_le (by norm_num) h
    have hsq : quatNorm q ^ 2 = quatNormSq q :=
      Real.sq_sqrt (by unfold quatNormSq; positivity)
    have hone : quatNorm (quatNormalize q) = 1 := by
      unfold quatNormalize
      rw [if_neg (not_lt.mpr h)]
      show Real.sqrt (quatNormSq ⟨q.x / quatNorm q, q.y / quatNorm q,
        q.z / quatNorm q, q.w / quatNorm q⟩) = 1
      have hdiv : quatNormSq ⟨q.x / quatNorm q, q.y / quatNorm q,
          q.z / quatNorm q, q.w / quatNorm q⟩ = quatNormSq q / quatNorm q ^ 2 := by
        unfold quatNormSq
        field_simp
      rw [hdiv, ← hsq, div_self (pow_ne_zero 2 h0.ne'), Real.sqrt_one]
    have key : ∀ p : Quat, quatNorm p = 1 → quatNormalize p = p := by
      intro p hp
      unfold quatNormalize
      rw [hp, if_neg (by norm_num)]
      simp only [div_one]
    exact key _ hone
  · unfold l2Normalize
    rw [if_neg h]

/-- Witness for C9: the zero quaternion is floored to the identity, the
identity quaternion is a fixed point of repeated normalization, and the empty
vector is below the L2 floor. -/
theorem c9_normalize_witness :
    quatNorm ⟨0, 0, 0, 0⟩ < 1e-12 ∧ quatNormalize ⟨0, 0, 0, 0⟩ = quatIdentity ∧
    (1e-12 : ℝ) ≤ quatNorm quatIdentity ∧
    quatNormalize (quatNormalize quatIdentity) = quatNormalize quatIdentity ∧
    ¬ (1e-8 : ℝ) < l2norm ([] : List ℝ) ∧ l2Normalize ([] : List ℝ) = [] := by
  have h1 : quatNorm ⟨0, 0, 0, 0⟩ < 1e-12 := by
    simp [quatNorm, quatNormSq]
    norm_num
  have h2 : (1e-12 : ℝ) ≤ quatNorm quatIdentity := by
    simp [quatNorm, quatNormSq, quatIdentity]
    norm_num
  have h3 : ¬ (1e-8 : ℝ) < l2norm ([] : List ℝ) := by
    simp [l2norm]
    norm_num
  exact ⟨h1, c9_normalize_floor_idempotent.1 _ h1, h2,
    c9_normalize_floor_idempotent.2.1 _ h2, h3,
    c9_normalize_floor_idempotent.2.2 _ h3⟩

/-! ## Heading invariance of the 6D root-rotation block (C4)

The proof factors through three facts: matrix conversion turns the Hamilton
product into matrix composition (via the conjugation identity, valid without
any unit hypothesis up to a `(normSq - 1)` correction term); a yaw rotation
shifts the heading angle by exactly its angle modulo `2π`; and the residual
`±1` quaternion sign ambiguity from the `2π` wrap is invisible to the 6D
representation. -/

theorem yawQuat_eq (α : ℝ) :
    yawQuat α = ⟨0, Real.sin (α * 0.5), 0, Real.cos (α * 0.5)⟩ := by
  have hn : Real.sqrt ((0 : ℝ) ^ 2 + 1 ^ 2 + 0 ^ 2) = 1 := by
    rw [show ((0 : ℝ) ^ 2 + 1 ^ 2 + 0 ^ 2) = 1 by norm_num, Real.sqrt_one]
  unfold yawQuat quatFromAxisAngle
  norm_num [hn]

theorem yawQuat_normSq (α : ℝ) : quatNormSq (yawQuat α) = 1 := by
  rw [yawQuat_eq]
  show (0 : ℝ) ^ 2 + Real.sin (α * 0.5) ^ 2 + 0 ^ 2 + Real.cos (α * 0.5) ^ 2 = 1
  have := Real.sin_sq_add_cos_sq (α * 0.5)
  nlinarith [this]

theorem yawQuat_mul (a b : ℝ) :
    quatMultiply (yawQuat a) (yawQuat b) = yawQuat (a + b) := by
  rw [yawQuat_eq, yawQuat_eq, yawQuat_eq, show (a + b) * 0.5 = a * 0.5 + b * 0.5 by ring,
    Real.sin_add, Real.cos_add]
  simp only [quatMultiply]
  norm_num [Quat.mk.injEq]
  all_goals ring

theorem yawQuat_zero : yawQuat 0 = quatIdentity := by
  rw [yawQuat_eq]
  norm_num [quatIdentity]

theorem quatMultiply_identity_left (q : Quat) : quatMultiply quatIdentity q = q := by
  simp [quatMultiply, quatIdentity]

theorem quat_conj_action (q : Quat) (v : Vec3) :
    quatMultiply (quatMultiply q ⟨v.x, v.y, v.z, 0⟩) (quatInverse q)
      = ⟨(mat3Apply (quatToMat3 q) v).x + (quatNormSq q - 1) * v.x,
         (mat3Apply (quatToMat3 q) v).y + (quatNormSq q - 1) * v.y,
         (mat3Apply (quatToMat3 q) v).z + (quatNormSq q - 1) * v.z, 0⟩ := by
  simp only [quatMultiply, quatInverse, mat3Apply, quatToMat3, quatNormSq, Quat.mk.injEq]
  refine ⟨by ring, by ring, by ring, by ring⟩

theorem quatMultiply_assoc (a b c : Quat) :
    quatMultiply (quatMultiply a b) c = quatMultiply a (quatMultiply b c) := by
  simp only [quatMultiply, Quat.mk.injEq]
  refine ⟨by ring, by ring, by ring, by ring⟩

theorem quatNormSq_mul (a b : Quat) :
    quatNormSq (quatMultiply a b) = quatNormSq a * quatNormSq b := by
  simp only [quatMultiply, quatNormSq]
  ring

theorem quatInverse_mul (a b : Quat) :
    quatInverse (quatMultiply a b) = quatMultiply (quatInverse b) (quatInverse a) := by
  simp only [quatMultiply, quatInverse, Quat.mk.injEq]
  refine ⟨by ring, by ring, by ring, by ring⟩

theorem quat_conj_action_unit (q : Quat) (v : Vec3) (hq : quatNormSq q = 1) :
    quatMultiply (quatMultiply q ⟨v.x, v.y, v.z, 0⟩) (quatInverse q)
      = ⟨(mat3Apply (quatToMat3 q) v).x, (mat3Apply (quatToMat3 q) v).y,
         (mat3Apply (quatToMat3 q) v).z, 0⟩ := by
  rw [quat_conj_action, hq]
  norm_num

theorem mat3Apply_mul (p q : Quat) (v : Vec3) (hp : quatNormSq p = 1)
    (hq : quatNormSq q = 1) :
    mat3Apply (quatToMat3 (quatMultiply p q)) v
      = mat3Apply (quatToMat3 p) (mat3Apply (quatToMat3 q) v) := by
  have hpq : quatNormSq (quatMultiply p q) = 1 := by
    rw [quatNormSq_mul, hp, hq, one_mul]
  have h1 := quat_conj_action_unit (quatMultiply p q) v hpq
  rw [quatInverse_mul] at h1
  have h2 : quatMultiply (quatMultiply (quatMultiply p q) ⟨v.x, v.y, v.z, 0⟩)
      (quatMultiply (quatInverse q) (quatInverse p))
      = quatMultiply (quatMultiply p (quatMultiply (quatMultiply q ⟨v.x, v.y, v.z, 0⟩)
        (quatInverse q))) (quatInverse p) := by
    simp only [quatMultiply_assoc]
  rw [h2, quat_conj_action_unit q v hq, quat_conj_action_unit p _ hp] at h1
  have hx := congrArg Quat.x h1
  have hy := congrArg Quat.y h1
  have hz := congrArg Quat.z h1
  cases hv2 : mat3Apply (quatToMat3 (quatMultiply p q)) v
  cases hv3 : mat3Apply (quatToMat3 p) (mat3Apply (quatToMat3 q) v)
  rw [hv2, hv3] at hx hy hz
  simp only at hx hy hz
  simp [hx, hy, hz]

theorem mat3Apply_yawQuat (α : ℝ) (w : Vec3) :
    mat3Apply (quatToMat3 (yawQuat α)) w
      = ⟨w.x * Real.cos α + w.z * Real.sin α, w.y,
         -w.x * Real.sin α + w.z * Real.cos α⟩ := by
  have hcos : Real.cos α = 1 - 2 * Real.sin (α * 0.5) ^ 2 := by
    have h := Real.cos_two_mul (α * 0.5)
    rw [show 2 * (α * 0.5) = α by ring] at h
    have hp := Real.sin_sq_add_cos_sq (α * 0.5)
    nlinarith [h, hp]
  have hsin : Real.sin α = 2 * Real.sin (α * 0.5) * Real.cos (α * 0.5) := by
    have h := Real.sin_two_mul (α * 0.5)
    rw [show 2 * (α * 0.5) = α by ring] at h
    exact h
  rw [yawQuat_eq, hcos, hsin]
  simp only [quatToMat3, mat3Apply, Vec3.mk.injEq]
  refine ⟨by ring, by ring, by ring⟩

theorem quatForward_yaw_mul (q : Quat) (α : ℝ) (hq : quatNormSq q = 1) :
    quatForward (quatMultiply (yawQuat α) q)
      = ⟨(quatForward q).x * Real.cos α + (quatForward q).z * Real.sin α,
         (quatForward q).y,
         -(quatForward q).x * Real.sin α + (quatForward q).z * Real.cos α⟩ := by
  unfold quatForward quatRotateVec3
  rw [mat3Apply_mul (yawQuat α) q _ (yawQuat_normSq α) hq, mat3Apply_yawQuat]

theorem heading_yaw_shift (q : Quat) (α : ℝ) (hq : quatNormSq q = 1)
    (hnz : (quatForward q).x ≠ 0 ∨ (quatForward q).z ≠ 0) :
    ∃ k : ℤ, getHeadingAngle (quatMultiply (yawQuat α) q)
      = getHeadingAngle q + α + 2 * Real.pi * k := by
  have hfwd := quatForward_yaw_mul q α hq
  set X := (quatForward q).x with hX
  set Z := (quatForward q).z with hZ
  have hw0 : (⟨Z, X⟩ : ℂ) ≠ 0 := by
    simp only [ne_eq, Complex.ext_iff, Complex.zero_re, Complex.zero_im, not_and_or]
    tauto
  have hprod : (⟨Z * Real.cos α - X * Real.sin α,
      X * Real.cos α + Z * Real.sin α⟩ : ℂ)
      = (⟨Z, X⟩ : ℂ) * Complex.exp (α * Complex.I) := by
    rw [Complex.exp_mul_I]
    apply Complex.ext <;>
      (simp [Complex.mul_re, Complex.mul_im, Complex.add_re, Complex.add_im,
        ← Complex.ofReal_cos, ← Complex.ofReal_sin]; try ring)
  have habs : Complex.abs ((⟨Z, X⟩ : ℂ) * Complex.exp (α * Complex.I))
      = Complex.abs (⟨Z, X⟩ : ℂ) := by
    rw [map_mul, Complex.abs_exp_ofReal_mul_I, mul_one]
  have h2 := Complex.abs_mul_exp_arg_mul_I ((⟨Z, X⟩ : ℂ) * Complex.exp (α * Complex.I))
  have h3 := Complex.abs_mul_exp_arg_mul_I (⟨Z, X⟩ : ℂ)
  rw [habs] at h2
  have hAne : (Complex.abs (⟨Z, X⟩ : ℂ) : ℂ) ≠ 0 := by
    simpa using (Complex.abs.ne_zero hw0)
  have hexp : Complex.exp ((Complex.arg ((⟨Z, X⟩ : ℂ) * Complex.exp (α * Complex.I))
      : ℂ) * Complex.I)
      = Complex.exp (((Complex.arg (⟨Z, X⟩ : ℂ) + α : ℝ) : ℂ) * Complex.I) := by
    have hr : ((((Complex.arg (⟨Z, X⟩ : ℂ) + α : ℝ)) : ℂ) * Complex.I)
        = (Complex.arg (⟨Z, X⟩ : ℂ) : ℂ) * Complex.I + (α : ℂ) * Complex.I := by
      push_cast
      ring
    rw [hr, Complex.exp_add]
    have h4 : (Complex.abs (⟨Z, X⟩ : ℂ) : ℂ)
        * Complex.exp ((Complex.arg ((⟨Z, X⟩ : ℂ) * Complex.exp (α * Complex.I)) : ℂ)
          * Complex.I)
        = (Complex.abs (⟨Z, X⟩ : ℂ) : ℂ)
        * (Complex.exp ((Complex.arg (⟨Z, X⟩ : ℂ) : ℂ) * Complex.I)
          * Complex.exp ((α : ℂ) * Complex.I)) := by
      rw [h2, ← mul_assoc, h3]
    exact mul_left_cancel₀ hAne h4
  rw [Complex.exp_eq_exp_iff_exists_int] at hexp
  obtain ⟨n, hn⟩ := hexp
  refine ⟨n, ?_⟩
  have harg2 : getHeadingAngle (quatMultiply (yawQuat α) q)
      = Complex.arg ((⟨Z, X⟩ : ℂ) * Complex.exp (α * Complex.I)) := by
    unfold getHeadingAngle atan2
    rw [hfwd, ← hprod]
    congr 1
    apply Complex.ext
    · show -X * Real.sin α + Z * Real.cos α = Z * Real.cos α - X * Real.sin α
      ring
    · rfl
  have harg1 : getHeadingAngle q = Complex.arg (⟨Z, X⟩ : ℂ) := rfl
  rw [harg1, harg2]
  have hn2 : ((Complex.arg ((⟨Z, X⟩ : ℂ) * Complex.exp (α * Complex.I)) : ℝ) : ℂ)
      = ((Complex.arg (⟨Z, X⟩ : ℂ) + α + 2 * Real.pi * n : ℝ) : ℂ) := by
    have hI := Complex.I_ne_zero
    apply mul_right_cancel₀ hI
    rw [hn]
    push_cast
    ring
  exact_mod_cast hn2

theorem yawQuat_add_two_pi_int (x : ℝ) (k : ℤ) :
    yawQuat (x + 2 * Real.pi * (k : ℝ)) = yawQuat x ∨
    yawQuat (x + 2 * Real.pi * (k : ℝ)) = qneg (yawQuat x) := by
  rw [yawQuat_eq, yawQuat_eq]
  rcases Int.even_or_odd k with ⟨m, hm⟩ | ⟨m, hm⟩
  · left
    subst hm
    have hs : (x + 2 * Real.pi * ((m + m : ℤ) : ℝ)) * 0.5
        = x * 0.5 + (m : ℝ) * (2 * Real.pi) := by
      push_cast
      ring
    rw [hs, Real.sin_add_int_mul_two_pi, Real.cos_add_int_mul_two_pi]
  · right
    subst hm
    have hs : (x + 2 * Real.pi * ((2 * m + 1 : ℤ) : ℝ)) * 0.5
        = (x * 0.5 + Real.pi) + (m : ℝ) * (2 * Real.pi) := by
      push_cast
      ring
    rw [hs, Real.sin_add_int_mul_two_pi, Real.cos_add_int_mul_two_pi,
      Real.sin_add_pi, Real.cos_add_pi]
    simp [qneg]

theorem qneg_mul_left (a b : Quat) :
    quatMultiply (qneg a) b = qneg (quatMultiply a b) := by
  simp only [quatMultiply, qneg, Quat.mk.injEq]
  refine ⟨by ring, by ring, by ring, by ring⟩

theorem quatNormalize_norm_one (q : Quat) (h : quatNorm q = 1) :
    quatNormalize q = q := by
  unfold quatNormalize
  rw [h, if_neg (by norm_num)]
  simp only [div_one]

theorem quatNorm_qneg (u : Quat) : quatNorm (qneg u) = quatNorm u := by
  unfold quatNorm
  congr 1
  simp only [quatNormSq, qneg]
  ring

theorem tanNorm6D_qneg (v : Quat) : quatToTanNorm6D (qneg v) = quatToTanNorm6D v := by
  simp only [quatToTanNorm6D, qneg, quatToMat3, List.cons.injEq, and_true]
  norm_num

theorem tanNorm6D_normalize_qneg (u : Quat) :
    quatToTanNorm6D (quatNormalize (qneg u)) = quatToTanNorm6D (quatNormalize u) := by
  unfold quatNormalize
  rw [quatNorm_qneg]
  by_cases hc : quatNorm u < 1e-12
  · rw [if_pos hc, if_pos hc]
  · rw [if_neg hc, if_neg hc]
    have hneg : Quat.mk ((qneg u).x / quatNorm u) ((qneg u).y / quatNorm u)
        ((qneg u).z / quatNorm u) ((qneg u).w / quatNorm u)
        = qneg ⟨u.x / quatNorm u, u.y / quatNorm u, u.z / quatNorm u, u.w / quatNorm u⟩ := by
      simp [qneg, neg_div]
    rw [hneg, tanNorm6D_qneg]

/-- C4 (amended): for every unit rotation quaternion `q` whose rotated
forward vector has a nonzero horizontal projection, composing any extra yaw
rotation onto `q` leaves the heading-stripped 6D root-rotation block exactly
unchanged.  (At the poles — forward rotated to vertical — the heading angle
degenerates to `atan2(0,0) = 0` and the invariance genuinely fails, see the
counterexample.) -/
theorem c4_heading_invariance (q : Quat) (α : ℝ) (hq : quatNormSq q = 1)
    (hnz : (quatForward q).x ≠ 0 ∨ (quatForward q).z ≠ 0) :
    quatToTanNorm6D (removeHeading (quatMultiply (yawQuat α) q))
      = quatToTanNorm6D (removeHeading q) := by
  obtain ⟨k, hk⟩ := heading_yaw_shift q α hq hnz
  unfold removeHeading
  rw [hk]
  have hang : -(getHeadingAngle q + α + 2 * Real.pi * (k : ℝ)) + α
      = -getHeadingAngle q + 2 * Real.pi * ((-k : ℤ) : ℝ) := by
    push_cast
    ring
  have hmul : quatMultiply (yawQuat (-(getHeadingAngle q + α + 2 * Real.pi * (k : ℝ))))
      (quatMultiply (yawQuat α) q)
      = quatMultiply (yawQuat (-getHeadingAngle q + 2 * Real.pi * ((-k : ℤ) : ℝ))) q := by
    rw [← quatMultiply_assoc, yawQuat_mul, hang]
  rw [hmul]
  rcases yawQuat_add_two_pi_int (-getHeadingAngle q) (-k) with he | he
  · rw [he]
  · rw [he, qneg_mul_left, tanNorm6D_normalize_qneg]

/-- Witness for C4 at the identity rotation and a one-radian yaw. -/
theorem c4_heading_invariance_witness :
    quatNormSq quatIdentity = 1 ∧
    ((quatForward quatIdentity).x ≠ 0 ∨ (quatForward quatIdentity).z ≠ 0) ∧
    quatToTanNorm6D (removeHeading (quatMultiply (yawQuat 1) quatIdentity))
      = quatToTanNorm6D (removeHeading quatIdentity) := by
  have h1 : quatNormSq quatIdentity = 1 := by norm_num [quatNormSq, quatIdentity]
  have h2 : (quatForward quatIdentity).x ≠ 0 ∨ (quatForward quatIdentity).z ≠ 0 := by
    right
    rw [quatForward_identity]
    norm_num
  exact ⟨h1, h2, c4_heading_invariance quatIdentity 1 h1 h2⟩

theorem removeHeading_heading_zero (q : Quat) (h : getHeadingAngle q = 0) :
    removeHeading q = quatNormalize q := by
  unfold removeHeading
  rw [h, neg_zero, yawQuat_zero, quatMultiply_identity_left]

/-- C4 counterexample: the unit quaternion `(1/2, 1/2, 1/2, -1/2)` rotates
the forward vector straight up, so its heading degenerates to zero; an extra
yaw by `π` then changes the heading-stripped 6D block, refuting the claim for
arbitrary rotation quaternions. -/
theorem c4_pole_counterexample :
    quatNormSq ⟨1 / 2, 1 / 2, 1 / 2, -(1 / 2)⟩ = 1 ∧
    quatToTanNorm6D (removeHeading (quatMultiply (yawQuat Real.pi)
        ⟨1 / 2, 1 / 2, 1 / 2, -(1 / 2)⟩))
      ≠ quatToTanNorm6D (removeHeading ⟨1 / 2, 1 / 2, 1 / 2, -(1 / 2)⟩) := by
  have hnormSq : quatNormSq ⟨1 / 2, 1 / 2, 1 / 2, -(1 / 2)⟩ = 1 := by
    norm_num [quatNormSq]
  have hyaw : yawQuat Real.pi = ⟨0, 1, 0, 0⟩ := by
    rw [yawQuat_eq, show Real.pi * 0.5 = Real.pi / 2 by ring, Real.sin_pi_div_two,
      Real.cos_pi_div_two]
  have hq1 : quatMultiply (yawQuat Real.pi) ⟨1 / 2, 1 / 2, 1 / 2, -(1 / 2)⟩
      = ⟨1 / 2, -(1 / 2), -(1 / 2), -(1 / 2)⟩ := by
    rw [hyaw]
    simp only [quatMultiply, Quat.mk.injEq]
    norm_num
  have hfwd0 : quatForward ⟨1 / 2, 1 / 2, 1 / 2, -(1 / 2)⟩ = ⟨0, 1, 0⟩ := by
    simp only [quatForward, quatRotateVec3, mat3Apply, quatToMat3, Vec3.mk.injEq]
    norm_num
  have hfwd1 : quatForward ⟨1 / 2, -(1 / 2), -(1 / 2), -(1 / 2)⟩ = ⟨0, 1, 0⟩ := by
    simp only [quatForward, quatRotateVec3, mat3Apply, quatToMat3, Vec3.mk.injEq]
    norm_num
  have hzero : Complex.arg ⟨0, 0⟩ = 0 := by
    rw [show (⟨0, 0⟩ : ℂ) = 0 from by norm_num [Complex.ext_iff], Complex.arg_zero]
  have hh0 : getHeadingAngle ⟨1 / 2, 1 / 2, 1 / 2, -(1 / 2)⟩ = 0 := by
    unfold getHeadingAngle atan2
    rw [hfwd0]
    exact hzero
  have hh1 : getHeadingAngle ⟨1 / 2, -(1 / 2), -(1 / 2), -(1 / 2)⟩ = 0 := by
    unfold getHeadingAngle atan2
    rw [hfwd1]
    exact hzero
  have hnorm0 : quatNorm ⟨1 / 2, 1 / 2, 1 / 2, -(1 / 2)⟩ = 1 := by
    unfold quatNorm
    rw [hnormSq, Real.sqrt_one]
  have hnorm1 : quatNorm ⟨1 / 2, -(1 / 2), -(1 / 2), -(1 / 2)⟩ = 1 := by
    unfold quatNorm
    rw [show quatNormSq ⟨1 / 2, -(1 / 2), -(1 / 2), -(1 / 2)⟩ = 1 from by
      norm_num [quatNormSq], Real.sqrt_one]
  refine ⟨hnormSq, ?_⟩
  rw [hq1, removeHeading_heading_zero _ hh1, removeHeading_heading_zero _ hh0,
    quatNormalize_norm_one _ hnorm1, quatNormalize_norm_one _ hnorm0]
  norm_num [quatToTanNorm6D, quatToMat3]

end Spec2Proof
